import Mathlib

/-!
The sync-hierarchy repair of gdrive, `drive/sync_fix.go`.

A shallow embedding of the sync-hierarchy repair code of `drive/sync_fix.go`
(`findSyncRoot`, `filterSyncDirFiles`, `FixSyncHierarchy`) together with the
properties of its specification that were checked against it.

Conventions of the embedding

* A Go `map[string]T` is an association list; a key occurs at most once in every
  map the code builds.  Go leaves the iteration order of a map unspecified, so
  every property below speaks about membership, never about positions.
* A Go slice is a pair of a backing array and a length.  `filesToProcess`
  always starts at offset `0` of the backing array of `files`, hence the
  backing array is a list of fixed length and the slice is its prefix of
  length `len`.
* A Go runtime panic (index or slice bounds out of range) is a result of its
  own, `Exec.panic`.
-/

namespace Drive

/-- The fields of `drive.File` that `sync_fix.go` reads or writes. -/
structure File where
  Id : String
  Name : String
  Parents : List String
  MimeType : String
  AppProperties : List (String × String)
deriving DecidableEq, Repr

/-- Outcome of running a piece of Go code: a normal return, a runtime panic, or
(only for the fuel-bounded loop of the embedding) exhausted fuel. -/
inductive Exec (α : Type) where
  | done (a : α)
  | panic
  | outOfFuel
deriving DecidableEq, Repr

/-! ## Go maps -/

/-- The comma-ok test `_, ok := m[k]`. -/
def mapHas {β : Type} (m : List (String × β)) (k : String) : Bool :=
  m.any (fun kv => kv.1 == k)

/-- The comma-ok read `v, ok := m[k]`. -/
def mapGet? {β : Type} (m : List (String × β)) (k : String) : Option β :=
  (m.find? (fun kv => kv.1 == k)).map Prod.snd

/-- The assignment `m[k] = v`: a present key is overwritten. -/
def mapSet {β : Type} (m : List (String × β)) (k : String) (v : β) : List (String × β) :=
  (k, v) :: m.filter (fun kv => !(kv.1 == k))

/-- The values of a map, as `for _, v := range m` enumerates them (in an order
Go does not specify). -/
def mapValues {β : Type} (m : List (String × β)) : List β :=
  m.map Prod.snd

/-! ## `filterSyncDirFiles` -/

/-- The local variables of `filterSyncDirFiles` that change during the loops:
the backing array of `filesToProcess`, the length of `filesToProcess`, and
`syncDirFilesMap`. -/
structure FilterState where
  arr : List File
  len : Nat
  syncDirFilesMap : List (String × File)
deriving DecidableEq, Repr

/-- The slice `filesToProcess` itself: the first `len` cells of its backing array. -/
def FilterState.filesToProcess (s : FilterState) : List File :=
  s.arr.take s.len

/-- The statement `filesToProcess = append(filesToProcess[:idx], filesToProcess[idx+1:]...)`.
`filesToProcess[idx+1:]` panics unless `idx+1 ≤ len(filesToProcess)`.  Otherwise the
append stays within the capacity, so it moves the cells `idx+1 .. len-1` of the backing
array one place down, leaves the cell `len-1` and everything behind it as it was, and
the slice gets one shorter. -/
def removeAt (s : FilterState) (idx : Nat) : Option FilterState :=
  if idx + 1 ≤ s.len then
    some { s with
      arr := s.arr.take idx ++ (s.arr.take s.len).drop (idx + 1) ++ s.arr.drop (s.len - 1)
      len := s.len - 1 }
  else
    none

/-- The inner loop `for idx, file := range filesToProcess { ... }` from index `idx` on,
with `k` iterations left.  The range expression is evaluated once, so the number of
iterations is fixed when the loop starts, while `file` is read from the backing array
at the time of the iteration.  The result is the flag `foundSyncDirFile` and the state
after the loop, or `none` for a runtime panic. -/
def rangeLoop (rootDir : File) : Nat → Nat → FilterState → Option (Bool × FilterState)
  | 0, _, s => some (false, s)
  | k + 1, idx, s =>
    match s.arr[idx]? with
    | none => none
    | some file =>
      match file.Parents with
      | [] => none
      | parent0 :: _ =>
        if mapHas s.syncDirFilesMap parent0 then
          match removeAt { s with syncDirFilesMap := mapSet s.syncDirFilesMap file.Id file } idx with
          | none => none
          | some s1 => some (true, s1)
        else if file.Id = rootDir.Id then
          match removeAt s idx with
          | none => none
          | some s1 => rangeLoop rootDir k (idx + 1) s1
        else
          rangeLoop rootDir k (idx + 1) s

/-- One pass: the body of `for foundSyncDirFile { ... }`. -/
def pass (rootDir : File) (s : FilterState) : Option (Bool × FilterState) :=
  rangeLoop rootDir s.len 0 s

/-- The outer loop `for foundSyncDirFile { ... }`, with a bound on the number of passes. -/
def passes (rootDir : File) : Nat → FilterState → Exec FilterState
  | 0, _ => .outOfFuel
  | fuel + 1, s =>
    match pass rootDir s with
    | none => .panic
    | some (true, s1) => passes rootDir fuel s1
    | some (false, s1) => .done s1

/-- The state in which the outer loop is entered. -/
def initState (rootDir : File) (files : List File) : FilterState :=
  { arr := files, len := files.length, syncDirFilesMap := [(rootDir.Id, rootDir)] }

/-- The function `filterSyncDirFiles` with an explicit bound on the number of passes. -/
def filterSyncDirFilesFuel (fuel : Nat) (rootDir : File) (files : List File) :
    Exec (List File × List File) :=
  match passes rootDir fuel (initState rootDir files) with
  | .done s => .done (mapValues s.syncDirFilesMap, s.filesToProcess)
  | .panic => .panic
  | .outOfFuel => .outOfFuel

/-- The function `filterSyncDirFiles(rootDir, files)`: the pair
`(syncDirFiles, filesToProcess)` it returns.  `len(files) + 1` passes always suffice, and a
larger bound gives the same result (`passes_ne_outOfFuel`, `passes_fuel_irrelevant`). -/
def filterSyncDirFiles (rootDir : File) (files : List File) : Exec (List File × List File) :=
  filterSyncDirFilesFuel (files.length + 1) rootDir files


/-- The identifiers of a list of files. -/
def ids (l : List File) : List String := l.map File.Id

/-- The keys of a map. -/
def keys {β : Type} (m : List (String × β)) : List String := m.map Prod.fst

/-! ## The invariant of the loops of `filterSyncDirFiles` -/

/-- What holds of the state of `filterSyncDirFiles` between any two statements of the loops,
for every listing. -/
structure Inv (rootDir : File) (files : List File) (s : FilterState) : Prop where
  len_le : s.len ≤ s.arr.length
  sub : s.filesToProcess.Sublist files
  root_key : rootDir.Id ∈ keys s.syncDirFilesMap
  key_id : ∀ kv ∈ s.syncDirFilesMap, kv.2.Id = kv.1
  keys_nodup : (keys s.syncDirFilesMap).Nodup
  cover : ∀ id, (id ∈ keys s.syncDirFilesMap ∨ id ∈ ids s.filesToProcess) ↔
    (id ∈ ids files ∨ id = rootDir.Id)
  closed : ∀ kv ∈ s.syncDirFilesMap, kv.2 = rootDir ∨
    (kv.2 ∈ files ∧ ∃ p ps, kv.2.Parents = p :: ps ∧ p ∈ keys s.syncDirFilesMap)

/-- No entry of the working list other than an entry of the root has its identifier in the
map. -/
def Disj (rootDir : File) (s : FilterState) : Prop :=
  ∀ id, id ∈ ids s.filesToProcess → id ∈ keys s.syncDirFilesMap → id = rootDir.Id

/-! ## The remote store -/

/-- A call to the remote store. -/
inductive Call where
  | get (fileId : String)
  | listAll
  | update (fileId : String) (appProperties : List (String × String))
deriving DecidableEq, Repr

/-- Whether a call is a call of `Files.Update`. -/
def Call.isUpdate : Call → Bool
  | .update _ _ => true
  | _ => false

/-- The collaborators of `sync_fix.go` that are declared elsewhere: the predicate `isDir`,
and the remote store behind `self.service.Files.Get(..).Do()`, `self.listAllFiles(..)` and
`self.service.Files.Update(..).Do()`.  A call takes the state of the store and gives an
answer, an error message or a value, and the next state of the store. -/
structure Service (σ : Type) where
  isDir : File → Bool
  filesGet : σ → String → Except String File × σ
  listAllFiles : σ → Except String (List File) × σ
  filesUpdate : σ → String → List (String × String) → Except String File × σ

/-! ## `findSyncRoot` -/

/-- The function `findSyncRoot(rootId)`: the pair `(*drive.File, error)` it returns, as a
value of `Except`, and the state in which it leaves the store. -/
def findSyncRoot {σ : Type} (svc : Service σ) (st : σ) (rootId : String) :
    Except String File × σ :=
  match svc.filesGet st rootId with
  | (.error err, st1) => (.error ("Failed to find root dir: " ++ err), st1)
  | (.ok f, st1) =>
    if !svc.isDir f then
      (.error "Provided root id is not a directory", st1)
    else if mapHas f.AppProperties "syncRoot" then
      (.ok f, st1)
    else
      (.error ("Root dir with id " ++ rootId ++ " is not a sync root"), st1)

/-! ## `FixSyncHierarchy` -/

/-- The fields of `FixSyncHierarchyArgs` that decide what `FixSyncHierarchy` does; the
writers `Out` and `Progress` are the log of the run. -/
structure FixSyncHierarchyArgs where
  RootId : String
  DryRun : Bool
deriving DecidableEq, Repr

/-- The lines `FixSyncHierarchy` writes to `args.Out`, one constructor for each `Fprint`
statement, with the values that are formatted into the line (the elapsed time of the last
line left out). -/
inductive LogLine where
  | starting
  | dryRun
  | searching
  | collecting
  | found (n : Nat)
  | updating (name id is should : String)
  | clearing (name id is : String)
  | finished
deriving DecidableEq, Repr

/-- What a loop over files did: the lines it wrote, the calls it made, the state it left the
store in, and the error it returned early with, if any. -/
structure LoopResult (σ : Type) where
  out : List LogLine
  calls : List Call
  state : σ
  err : Option String

/-- The read `file.AppProperties["syncRootId"]`: the empty string when the key is absent. -/
def syncRootIdOf (file : File) : String :=
  (mapGet? file.AppProperties "syncRootId").getD ""

/-- The first loop of `FixSyncHierarchy`, `for _, file := range syncDirFiles { ... }`. -/
def updateSyncDirFiles {σ : Type} (svc : Service σ) (args : FixSyncHierarchyArgs)
    (rootDir : File) : List File → σ → LoopResult σ
  | [], st => { out := [], calls := [], state := st, err := none }
  | file :: rest, st =>
    let syncRootId := syncRootIdOf file
    if syncRootId = rootDir.Id ∨ file.Id = rootDir.Id then
      updateSyncDirFiles svc args rootDir rest st
    else
      let line := LogLine.updating file.Name file.Id syncRootId args.RootId
      if args.DryRun then
        let r := updateSyncDirFiles svc args rootDir rest st
        { r with out := line :: r.out }
      else
        let call := Call.update file.Id [("syncRootId", args.RootId)]
        match svc.filesUpdate st file.Id [("syncRootId", args.RootId)] with
        | (.error err, st1) =>
          { out := [line], calls := [call], state := st1,
            err := some ("Failed to update syncRootId of directory: " ++ err) }
        | (.ok _, st1) =>
          let r := updateSyncDirFiles svc args rootDir rest st1
          { r with out := line :: r.out, calls := call :: r.calls }

/-- The second loop of `FixSyncHierarchy`, `for _, file := range nonSyncDirFiles { ... }`. -/
def clearNonSyncDirFiles {σ : Type} (svc : Service σ) (args : FixSyncHierarchyArgs) :
    List File → σ → LoopResult σ
  | [], st => { out := [], calls := [], state := st, err := none }
  | file :: rest, st =>
    if mapGet? file.AppProperties "syncRootId" = some "" then
      clearNonSyncDirFiles svc args rest st
    else
      let line := LogLine.clearing file.Name file.Id (syncRootIdOf file)
      if args.DryRun then
        let r := clearNonSyncDirFiles svc args rest st
        { r with out := line :: r.out }
      else
        let call := Call.update file.Id [("syncRootId", "")]
        match svc.filesUpdate st file.Id [("syncRootId", "")] with
        | (.error err, st1) =>
          { out := [line], calls := [call], state := st1,
            err := some ("Failed to update syncRootId of directory: " ++ err) }
        | (.ok _, st1) =>
          let r := clearNonSyncDirFiles svc args rest st1
          { r with out := line :: r.out, calls := call :: r.calls }

/-- A run of `FixSyncHierarchy`: the lines written to `args.Out`, the calls made to the remote
store in the order they were made, the state the store is left in, and the outcome: the
returned `error` (`none` for `nil`) or a runtime panic. -/
structure Run (σ : Type) where
  out : List LogLine
  calls : List Call
  state : σ
  result : Exec (Option String)

/-- The lines written before the root is looked up. -/
def headLines (args : FixSyncHierarchyArgs) : List LogLine :=
  [LogLine.starting] ++ (if args.DryRun then [LogLine.dryRun] else []) ++ [LogLine.searching]

/-- The method `FixSyncHierarchy(args)`, run against the store in state `st`. -/
def FixSyncHierarchy {σ : Type} (svc : Service σ) (args : FixSyncHierarchyArgs) (st : σ) :
    Run σ :=
  match findSyncRoot svc st args.RootId with
  | (.error err, st1) =>
    { out := headLines args, calls := [Call.get args.RootId], state := st1,
      result := .done (some err) }
  | (.ok rootDir, st1) =>
    match svc.listAllFiles st1 with
    | (.error err, st2) =>
      { out := headLines args ++ [LogLine.collecting],
        calls := [Call.get args.RootId, Call.listAll], state := st2,
        result := .done (some ("Failed listing files: " ++ err)) }
    | (.ok files, st2) =>
      let out1 := headLines args ++ [LogLine.collecting, LogLine.found files.length]
      let calls1 := [Call.get args.RootId, Call.listAll]
      match filterSyncDirFiles rootDir files with
      | .panic => { out := out1, calls := calls1, state := st2, result := .panic }
      | .outOfFuel => { out := out1, calls := calls1, state := st2, result := .outOfFuel }
      | .done (syncDirFiles, nonSyncDirFiles) =>
        let r1 := updateSyncDirFiles svc args rootDir syncDirFiles st2
        match r1.err with
        | some err =>
          { out := out1 ++ r1.out, calls := calls1 ++ r1.calls, state := r1.state,
            result := .done (some err) }
        | none =>
          let r2 := clearNonSyncDirFiles svc args nonSyncDirFiles r1.state
          match r2.err with
          | some err =>
            { out := out1 ++ r1.out ++ r2.out, calls := calls1 ++ r1.calls ++ r2.calls,
              state := r2.state, result := .done (some err) }
          | none =>
            { out := out1 ++ r1.out ++ r2.out ++ [LogLine.finished],
              calls := calls1 ++ r1.calls ++ r2.calls, state := r2.state,
              result := .done none }

/-- The files of `syncDirFiles` for which the first loop does not `continue`: the condition
`syncRootId == rootDir.Id || file.Id == rootDir.Id` is false. -/
def selectedForUpdate (rootDir file : File) : Bool :=
  !decide (syncRootIdOf file = rootDir.Id ∨ file.Id = rootDir.Id)

/-- The files of `nonSyncDirFiles` for which the second loop does not `continue`: it is not
the case that the key `syncRootId` is present with the empty string as its value. -/
def selectedForClear (file : File) : Bool :=
  !decide (mapGet? file.AppProperties "syncRootId" = some "")

/-- The call the first loop issues for a file. -/
def updateCall (rootId : String) (file : File) : Call :=
  Call.update file.Id [("syncRootId", rootId)]

/-- The call the second loop issues for a file. -/
def clearCall (file : File) : Call :=
  Call.update file.Id [("syncRootId", "")]

/-- The line the first loop writes for a file. -/
def updateLine (rootId : String) (file : File) : LogLine :=
  LogLine.updating file.Name file.Id (syncRootIdOf file) rootId

/-- The line the second loop writes for a file. -/
def clearLine (file : File) : LogLine :=
  LogLine.clearing file.Name file.Id (syncRootIdOf file)

/-- The lines of a log that announce a correction. -/
def decisions (out : List LogLine) : List LogLine :=
  out.filter (fun l =>
    match l with
    | .updating _ _ _ _ => true
    | .clearing _ _ _ => true
    | _ => false)

/-- The reading of the specification for the first loop: a file other than the root is
corrected when its `syncRootId` is absent or has a value other than the root's identifier. -/
def specSelectedForUpdate (rootDir file : File) : Bool :=
  decide (file.Id ≠ rootDir.Id) &&
    (match mapGet? file.AppProperties "syncRootId" with
     | none => true
     | some v => decide (v ≠ rootDir.Id))

/-! ## Concrete inputs -/

/-- The MIME type of a directory. -/
def folderMime : String := "application/vnd.google-apps.folder"

/-- A file of a listing with the given identifier, parents and `appProperties`. -/
def listed (id : String) (parents : List String) (props : List (String × String)) : File :=
  { Id := id, Name := id, Parents := parents, MimeType := "", AppProperties := props }

/-- The sync root `R` as `findSyncRoot` returns it: the fetch asks for the fields `id`,
`name`, `mimeType` and `appProperties`, so the parents are not set. -/
def rootR : File :=
  { Id := "R", Name := "R", Parents := [], MimeType := folderMime,
    AppProperties := [("syncRoot", "true")] }

/-- The entry the listing has for the directory `R`, which lies in a directory `top`. -/
def entryR : File :=
  { Id := "R", Name := "R", Parents := ["top"], MimeType := folderMime,
    AppProperties := [("syncRoot", "true")] }

/-- The entry of `R` when `R` has no parent. -/
def entryRNoParents : File :=
  { Id := "R", Name := "R", Parents := [], MimeType := folderMime,
    AppProperties := [("syncRoot", "true")] }

/-- A child of `R`. -/
def fileA : File := listed "A" ["R"] []

/-- A child of `A`. -/
def fileB : File := listed "B" ["A"] []

/-- A file in a directory that is not listed. -/
def fileX : File := listed "X" ["other"] []

/-- A file without parents. -/
def fileOrphan : File := listed "O" [] []

/-- A file in `Q`, which is in turn a file in `P`. -/
def fileP : File := listed "P" ["Q"] []

/-- A file in `P`, which is in turn a file in `Q`. -/
def fileQ : File := listed "Q" ["P"] []

/-- A file outside the subtree of `R` whose `syncRootId` is the empty string. -/
def fileD : File := listed "D" ["other"] [("syncRootId", "")]

/-- A file in `rootY` whose `syncRootId` names another root. -/
def fileC : File := listed "C" ["rootY"] [("syncRootId", "rootX")]

/-- The sync root `rootY` of the third scenario. -/
def rootY : File :=
  { Id := "rootY", Name := "Y", Parents := [], MimeType := folderMime,
    AppProperties := [("syncRoot", "")] }

/-- A directory whose identifier is the empty string. -/
def rootEmptyId : File :=
  { Id := "", Name := "E", Parents := [], MimeType := folderMime,
    AppProperties := [("syncRoot", "true")] }

/-- A file in the directory whose identifier is the empty string, without `syncRootId`. -/
def fileInEmptyId : File := listed "A" [""] []

/-- A directory without the key `syncRoot`. -/
def plainDir : File :=
  { Id := "S", Name := "S", Parents := [], MimeType := folderMime, AppProperties := [] }

/-- A file that is not a directory. -/
def plainFile : File :=
  { Id := "F", Name := "F", Parents := [], MimeType := "text/plain",
    AppProperties := [("syncRoot", "true")] }

/-- An example store without a state of its own: `Files.Get` knows the files of `known`,
the listing is `files`, every update succeeds, and a directory is a file whose MIME type is
the folder type. -/
def exampleStore (known files : List File) : Service Unit where
  isDir := fun f => f.MimeType == folderMime
  filesGet := fun st id =>
    match known.find? (fun f => f.Id == id) with
    | some f => (.ok f, st)
    | none => (.error "File not found", st)
  listAllFiles := fun st => (.ok files, st)
  filesUpdate := fun st id props =>
    (.ok { Id := id, Name := "", Parents := [], MimeType := "", AppProperties := props }, st)

/-! ## Chains of first parents and the number of passes -/

/-- A chain of first-parent links from a file to the identifier `rootId`, every
intermediate file of which is in the listing `files`: either the first parent of the file
is `rootId`, or it is the identifier of a file of the listing that has such a chain. -/
inductive Reach (rootId : String) (files : List File) : File → Prop where
  | direct (f : File) (ps : List String) : f.Parents = rootId :: ps → Reach rootId files f
  | step (f g : File) (ps : List String) :
      f.Parents = g.Id :: ps → g ∈ files → Reach rootId files g → Reach rootId files f

/-- Every entry of the map other than the root itself is a file of the listing with a chain
of first parents to the root. -/
def ReachInv (rootDir : File) (files : List File) (s : FilterState) : Prop :=
  ∀ kv ∈ s.syncDirFilesMap, kv.2 = rootDir ∨ (kv.2 ∈ files ∧ Reach rootDir.Id files kv.2)

/-- No file of the working list has its first parent in the map. -/
def Stuck (s : FilterState) : Prop :=
  ∀ f ∈ s.filesToProcess, ∀ p ps, f.Parents = p :: ps → mapHas s.syncDirFilesMap p = false

/-- The number of passes the outer loop `for foundSyncDirFile { ... }` starts, a pass that
ends in a panic included, with the bound of `passes` on the number of passes. -/
def passCount (rootDir : File) : Nat → FilterState → Nat
  | 0, _ => 0
  | fuel + 1, s =>
    match pass rootDir s with
    | none => 1
    | some (true, s1) => 1 + passCount rootDir fuel s1
    | some (false, _) => 1

/-- The number of passes of `filterSyncDirFiles(rootDir, files)`. -/
def filterSyncDirFilesPasses (rootDir : File) (files : List File) : Nat :=
  passCount rootDir (files.length + 1) (initState rootDir files)

/-! ## Two calls of `filterSyncDirFiles` on the same slice -/

/-- The cells of the caller's slice `files` after `filterSyncDirFiles(rootDir, files)` has
returned: `filesToProcess := files` copies the slice header, not the cells, so the removals
of the loops are removals in the backing array of `files`, and `files` keeps its length. -/
def filterSyncDirFilesArray (rootDir : File) (files : List File) : Exec (List File) :=
  match passes rootDir (files.length + 1) (initState rootDir files) with
  | .done s => .done s.arr
  | .panic => .panic
  | .outOfFuel => .outOfFuel

/-- Two calls `filterSyncDirFiles(rootDir, files)` in succession with the same slice `files`:
the results of the first and of the second call.  The second call reads the cells the first
call left. -/
def filterSyncDirFilesTwice (rootDir : File) (files : List File) :
    Exec ((List File × List File) × (List File × List File)) :=
  match filterSyncDirFiles rootDir files with
  | .done r1 =>
    match filterSyncDirFilesArray rootDir files with
    | .done arr =>
      match filterSyncDirFiles rootDir arr with
      | .done r2 => .done (r1, r2)
      | .panic => .panic
      | .outOfFuel => .outOfFuel
    | .panic => .panic
    | .outOfFuel => .outOfFuel
  | .panic => .panic
  | .outOfFuel => .outOfFuel

/-! ## The answers of the store to the calls of a run -/

/-- Whether the answer to a call is an error. -/
def failed {α : Type} : Except String α → Bool
  | .error _ => true
  | .ok _ => false

/-- The answer of the store in state `st` to a call: whether the call fails, and the next
state of the store. -/
def Service.answer {σ : Type} (svc : Service σ) (st : σ) : Call → Bool × σ
  | .get fileId => (failed (svc.filesGet st fileId).1, (svc.filesGet st fileId).2)
  | .listAll => (failed (svc.listAllFiles st).1, (svc.listAllFiles st).2)
  | .update fileId props =>
    (failed (svc.filesUpdate st fileId props).1, (svc.filesUpdate st fileId props).2)

/-- For calls made one after the other from state `st`: which of them fail. -/
def replay {σ : Type} (svc : Service σ) : σ → List Call → List Bool
  | _, [] => []
  | st, c :: cs => (svc.answer st c).1 :: replay svc (svc.answer st c).2 cs

/-- For calls made one after the other from state `st`: the state after the last. -/
def replayState {σ : Type} (svc : Service σ) : σ → List Call → σ
  | st, [] => st
  | st, c :: cs => replayState svc (svc.answer st c).2 cs

/-- The shape of the answers to the calls of a part of a run: either no call fails, or the
last call fails and no call before it. -/
def TraceShape {σ : Type} (svc : Service σ) (st : σ) (calls : List Call) (err : Bool) : Prop :=
  (err = false ∧ replay svc st calls = List.replicate calls.length false) ∨
  (err = true ∧ ∃ n, calls.length = n + 1 ∧
    replay svc st calls = List.replicate n false ++ [true])

/-- The example store with one file whose updates fail. -/
def exampleStoreFailing (known files : List File) (bad : String) : Service Unit where
  isDir := fun f => f.MimeType == folderMime
  filesGet := (exampleStore known files).filesGet
  listAllFiles := (exampleStore known files).listAllFiles
  filesUpdate := fun st id props =>
    if id = bad then (.error "update refused", st)
    else (exampleStore known files).filesUpdate st id props

/-! ## A store that records what it is given -/

/-- The `appProperties` of a file after an update that supplies `props`: every supplied key
gets the supplied value, the empty string included, and the other keys stay. -/
def mergeProps (old props : List (String × String)) : List (String × String) :=
  props.foldl (fun m kv => mapSet m kv.1 kv.2) old

/-- What the update of the file `fileId` with `props` does to a file of the store: only the
`appProperties` of the file with that identifier change. -/
def applyUpdate (fileId : String) (props : List (String × String)) (f : File) : File :=
  if f.Id = fileId then { f with AppProperties := mergeProps f.AppProperties props } else f

/-- What a call does to a file of the store. -/
def applyCall : Call → File → File
  | .update fileId props, f => applyUpdate fileId props f
  | _, f => f

/-- What calls made one after the other do to a file of the store. -/
def applyCalls (calls : List Call) (f : File) : File :=
  calls.foldl (fun g c => applyCall c g) f

/-- A store whose state is the list of its files: `Files.Get` answers with the file of the
given identifier, the listing answers with all files, and an update of a file of the store
records the supplied `appProperties` and changes nothing else, so the identifiers and the
parent links stay as they are.  `isDir` is the predicate of the program. -/
def recordingStore (isDir : File → Bool) : Service (List File) where
  isDir := isDir
  filesGet := fun st id =>
    match st.find? (fun f => f.Id == id) with
    | some f => (.ok f, st)
    | none => (.error "File not found", st)
  listAllFiles := fun st => (.ok st, st)
  filesUpdate := fun st id props =>
    match st.find? (fun f => f.Id == id) with
    | some f => (.ok (applyUpdate id props f), st.map (applyUpdate id props))
    | none => (.error "File not found", st)

/-- The state of `filterSyncDirFiles` with a function applied to every file in it. -/
def mapState (h : File → File) (s : FilterState) : FilterState :=
  { arr := s.arr.map h, len := s.len,
    syncDirFilesMap := s.syncDirFilesMap.map (fun kv => (kv.1, h kv.2)) }

/-- The result of `filterSyncDirFiles` with a function applied to every file in it. -/
def mapResult (h : File → File) :
    Exec (List File × List File) → Exec (List File × List File)
  | .done r => .done (r.1.map h, r.2.map h)
  | .panic => .panic
  | .outOfFuel => .outOfFuel

/-- The entry of the directory `rootY` in a store: it lies in a directory `top`. -/
def entryY : File :=
  { Id := "rootY", Name := "Y", Parents := ["top"], MimeType := folderMime,
    AppProperties := [("syncRoot", "")] }

/-- The files of an example store: `C` in `rootY` with a stale `syncRootId`, `X` outside
without `syncRootId`, and the directory `rootY`. -/
def storeY : List File := [fileC, fileX, entryY]

/-- A recording store whose listing comes in the stored order and in the reverse order in
turn: the state is the list of the files and whether the next listing is reversed.  The
listing call of the program asks for no sort order (`sortOrder: ""`), so the order of a
listing is the store's choice.  `Files.Get` and the updates are those of `recordingStore`. -/
def flipStore (isDir : File → Bool) : Service (List File × Bool) where
  isDir := isDir
  filesGet := fun st id =>
    match st.1.find? (fun f => f.Id == id) with
    | some f => (.ok f, st)
    | none => (.error "File not found", st)
  listAllFiles := fun st => (.ok (if st.2 then st.1.reverse else st.1), (st.1, !st.2))
  filesUpdate := fun st id props =>
    match st.1.find? (fun f => f.Id == id) with
    | some f => (.ok (applyUpdate id props f), (st.1.map (applyUpdate id props), st.2))
    | none => (.error "File not found", st)

/-- A file in `rootY` whose `syncRootId` is the empty string. -/
def fileAY : File := listed "A" ["rootY"] [("syncRootId", "")]

/-- A file in `A` whose `syncRootId` is the empty string. -/
def fileBY : File := listed "B" ["A"] [("syncRootId", "")]

/-- The files of a store with the directory `rootY` in front of its descendants. -/
def storeRootFirst : List File := [entryY, fileAY, fileBY]

/-! ## Facts about maps -/

theorem mapHas_iff {β : Type} (m : List (String × β)) (k : String) :
    mapHas m k = true ↔ k ∈ keys m := by
  simp only [mapHas, keys, List.any_eq_true, List.mem_map, beq_iff_eq]

theorem mem_mapSet {β : Type} (m : List (String × β)) (k : String) (v : β) (kv : String × β) :
    kv ∈ mapSet m k v ↔ kv = (k, v) ∨ (kv ∈ m ∧ kv.1 ≠ k) := by
  simp [mapSet, List.mem_filter]

theorem mem_keys_mapSet {β : Type} (m : List (String × β)) (k : String) (v : β) (x : String) :
    x ∈ keys (mapSet m k v) ↔ x = k ∨ x ∈ keys m := by
  simp only [keys, List.mem_map, mem_mapSet]
  constructor
  · rintro ⟨kv, h | ⟨h, _⟩, rfl⟩
    · left; rw [h]
    · right; exact ⟨kv, h, rfl⟩
  · rintro (rfl | ⟨kv, h, rfl⟩)
    · exact ⟨(x, v), Or.inl rfl, rfl⟩
    · by_cases hk : kv.1 = k
      · exact ⟨(k, v), Or.inl rfl, hk.symm⟩
      · exact ⟨kv, Or.inr ⟨h, hk⟩, rfl⟩

theorem nodup_keys_mapSet {β : Type} (m : List (String × β)) (k : String) (v : β)
    (h : (keys m).Nodup) : (keys (mapSet m k v)).Nodup := by
  have hsub : (keys (m.filter (fun kv => !(kv.1 == k)))).Sublist (keys m) :=
    List.Sublist.map _ (List.filter_sublist m)
  have hk : k ∉ keys (m.filter (fun kv => !(kv.1 == k))) := by
    simp [keys, List.mem_filter]
  have hcons : (k :: keys (m.filter (fun kv => !(kv.1 == k)))).Nodup :=
    List.nodup_cons.mpr ⟨hk, hsub.nodup h⟩
  exact hcons

/-! ## Facts about the slice removal -/

theorem removeAt_split (s s1 : FilterState) (idx : Nat) (file : File)
    (hlen : s.len ≤ s.arr.length) (hget : s.arr[idx]? = some file)
    (hrm : removeAt s idx = some s1) :
    ∃ l1 l2, s.filesToProcess = l1 ++ file :: l2 ∧ s1.filesToProcess = l1 ++ l2 ∧
      l1.length = idx ∧ s1.len + 1 = s.len ∧ s1.arr.length = s.arr.length ∧
      s1.syncDirFilesMap = s.syncDirFilesMap := by
  unfold removeAt at hrm
  split at hrm
  · rename_i hidx
    injection hrm with hrm
    subst hrm
    have hidx2 : idx < s.arr.length := by omega
    have hfile : s.arr[idx] = file := by
      rw [List.getElem?_eq_getElem hidx2] at hget
      exact Option.some.inj hget
    have htl : (s.arr.take s.len).length = s.len := by
      rw [List.length_take]; omega
    have hdrop : (s.arr.take s.len).drop idx = file :: (s.arr.take s.len).drop (idx + 1) := by
      have hlt : idx < (s.arr.take s.len).length := by omega
      rw [List.drop_eq_getElem_cons hlt, List.getElem_take, hfile]
    have htake : (s.arr.take s.len).take idx = s.arr.take idx := by
      rw [List.take_take]; congr 1; omega
    refine ⟨s.arr.take idx, (s.arr.take s.len).drop (idx + 1), ?_, ?_, ?_, ?_, ?_, rfl⟩
    · show s.arr.take s.len = _
      rw [← hdrop, ← htake, List.take_append_drop]
    · show List.take (s.len - 1) _ = _
      have hl : (s.arr.take idx ++ (s.arr.take s.len).drop (idx + 1)).length = s.len - 1 := by
        rw [List.length_append, List.length_take, List.length_drop, htl]; omega
      rw [List.take_append_eq_append_take, hl, Nat.sub_self, List.take_zero, List.append_nil,
        List.take_of_length_le (le_of_eq hl)]
    · rw [List.length_take]; omega
    · show s.len - 1 + 1 = s.len
      omega
    · show (s.arr.take idx ++ (s.arr.take s.len).drop (idx + 1) ++ s.arr.drop (s.len - 1)).length = _
      rw [List.length_append, List.length_append, List.length_take, List.length_drop,
        List.length_drop, htl]
      omega
  · exact absurd hrm (by simp)

theorem removeAt_len_lt (s s1 : FilterState) (idx : Nat) (hrm : removeAt s idx = some s1) :
    s1.len + 1 = s.len ∧ idx < s.len := by
  unfold removeAt at hrm
  split at hrm
  · rename_i hidx
    injection hrm with hrm
    subst hrm
    constructor
    · show s.len - 1 + 1 = s.len
      omega
    · omega
  · exact absurd hrm (by simp)

/-! ## One iteration of the inner loop -/

/-- What an iteration of the inner loop that returns did: it read `file` at `idx`, found a
first parent, and either moved `file` into the map and stopped, or discarded the entry of
the root and went on, or went on without a change. -/
theorem rangeLoop_succ_some (rootDir : File) (k idx : Nat) (s : FilterState)
    (r : Bool × FilterState) (h : rangeLoop rootDir (k + 1) idx s = some r) :
    ∃ file p ps, s.arr[idx]? = some file ∧ file.Parents = p :: ps ∧
      ((mapHas s.syncDirFilesMap p = true ∧
          ∃ s1, removeAt { s with syncDirFilesMap := mapSet s.syncDirFilesMap file.Id file } idx
                  = some s1 ∧ r = (true, s1)) ∨
       (mapHas s.syncDirFilesMap p = false ∧ file.Id = rootDir.Id ∧
          ∃ s1, removeAt s idx = some s1 ∧ rangeLoop rootDir k (idx + 1) s1 = some r) ∨
       (mapHas s.syncDirFilesMap p = false ∧ file.Id ≠ rootDir.Id ∧
          rangeLoop rootDir k (idx + 1) s = some r)) := by
  unfold rangeLoop at h
  cases hget : s.arr[idx]? with
  | none => simp [hget] at h
  | some file =>
    simp only [hget] at h
    cases hpar : file.Parents with
    | nil => simp [hpar] at h
    | cons p ps =>
      refine ⟨file, p, ps, rfl, hpar, ?_⟩
      simp only [hpar] at h
      by_cases hm : mapHas s.syncDirFilesMap p = true
      · left
        refine ⟨hm, ?_⟩
        simp only [hm, if_true] at h
        cases hrm : removeAt { s with syncDirFilesMap := mapSet s.syncDirFilesMap file.Id file } idx with
        | none => simp [hrm] at h
        | some s1 =>
          simp only [hrm] at h
          exact ⟨s1, rfl, (Option.some.inj h).symm⟩
      · right
        have hm2 : mapHas s.syncDirFilesMap p = false := by simpa using hm
        simp only [hm2, Bool.false_eq_true, if_false] at h
        by_cases hid : file.Id = rootDir.Id
        · left
          refine ⟨hm2, hid, ?_⟩
          simp only [hid, if_true] at h
          cases hrm : removeAt s idx with
          | none => simp [hrm] at h
          | some s1 =>
            simp only [hrm] at h
            exact ⟨s1, rfl, h⟩
        · right
          simp only [hid, if_false] at h
          exact ⟨hm2, hid, h⟩

theorem inv_init (rootDir : File) (files : List File) :
    Inv rootDir files (initState rootDir files) where
  len_le := le_refl _
  sub := by simp [initState, FilterState.filesToProcess]
  root_key := by simp [initState, keys]
  key_id := by simp [initState]
  keys_nodup := by simp [initState, keys]
  cover := by
    intro id
    simp only [initState, FilterState.filesToProcess, keys, List.take_length, List.map_cons,
      List.map_nil, List.mem_singleton]
    tauto
  closed := by simp [initState]

theorem inv_insert (rootDir : File) (files : List File) (s s1 : FilterState) (idx : Nat)
    (file : File) (p : String) (ps : List String) (hinv : Inv rootDir files s)
    (hget : s.arr[idx]? = some file) (hpar : file.Parents = p :: ps)
    (hm : mapHas s.syncDirFilesMap p = true)
    (hrm : removeAt { s with syncDirFilesMap := mapSet s.syncDirFilesMap file.Id file } idx
      = some s1) : Inv rootDir files s1 := by
  obtain ⟨l1, l2, hw, hw1, _, hl, ha, hmap⟩ :=
    removeAt_split { s with syncDirFilesMap := mapSet s.syncDirFilesMap file.Id file } s1 idx file
      hinv.len_le hget hrm
  have hw0 : s.filesToProcess = l1 ++ file :: l2 := hw
  have hmap0 : s1.syncDirFilesMap = mapSet s.syncDirFilesMap file.Id file := hmap
  have hl0 : s1.len + 1 = s.len := hl
  have ha0 : s1.arr.length = s.arr.length := ha
  have hp : p ∈ keys s.syncDirFilesMap := (mapHas_iff _ _).mp hm
  have hfile : file ∈ files := by
    apply hinv.sub.subset
    rw [hw0]
    simp
  refine ⟨?_, ?_, ?_, ?_, ?_, ?_, ?_⟩
  · have := hinv.len_le
    omega
  · rw [hw1]
    have h1 : (l1 ++ l2).Sublist (l1 ++ file :: l2) :=
      List.Sublist.append_left (List.sublist_cons_self file l2) l1
    have hs := hinv.sub
    rw [hw0] at hs
    exact h1.trans hs
  · rw [hmap0, mem_keys_mapSet]
    exact Or.inr hinv.root_key
  · intro kv hkv
    rw [hmap0, mem_mapSet] at hkv
    rcases hkv with rfl | ⟨hkv, _⟩
    · rfl
    · exact hinv.key_id kv hkv
  · rw [hmap0]
    exact nodup_keys_mapSet _ _ _ hinv.keys_nodup
  · intro id
    rw [← hinv.cover id, hmap0, mem_keys_mapSet, hw1, hw0]
    simp only [ids, List.map_append, List.map_cons, List.mem_append, List.mem_cons]
    tauto
  · intro kv hkv
    rw [hmap0, mem_mapSet] at hkv
    rcases hkv with rfl | ⟨hkv, _⟩
    · right
      refine ⟨hfile, p, ps, hpar, ?_⟩
      rw [hmap0, mem_keys_mapSet]
      exact Or.inr hp
    · rcases hinv.closed kv hkv with h | ⟨h1, q, qs, h2, h3⟩
      · exact Or.inl h
      · right
        refine ⟨h1, q, qs, h2, ?_⟩
        rw [hmap0, mem_keys_mapSet]
        exact Or.inr h3

theorem inv_discard (rootDir : File) (files : List File) (s s1 : FilterState) (idx : Nat)
    (file : File) (hinv : Inv rootDir files s)
    (hget : s.arr[idx]? = some file) (hid : file.Id = rootDir.Id)
    (hrm : removeAt s idx = some s1) : Inv rootDir files s1 := by
  obtain ⟨l1, l2, hw0, hw1, _, hl0, ha0, hmap0⟩ :=
    removeAt_split s s1 idx file hinv.len_le hget hrm
  refine ⟨?_, ?_, ?_, ?_, ?_, ?_, ?_⟩
  · have := hinv.len_le
    omega
  · rw [hw1]
    have h1 : (l1 ++ l2).Sublist (l1 ++ file :: l2) :=
      List.Sublist.append_left (List.sublist_cons_self file l2) l1
    have hs := hinv.sub
    rw [hw0] at hs
    exact h1.trans hs
  · rw [hmap0]
    exact hinv.root_key
  · rw [hmap0]
    exact hinv.key_id
  · rw [hmap0]
    exact hinv.keys_nodup
  · intro id
    have hr := hinv.root_key
    rw [← hinv.cover id, hmap0, hw1, hw0]
    simp only [ids, List.map_append, List.map_cons, List.mem_append, List.mem_cons]
    constructor
    · tauto
    · rintro (h | h | h | h)
      · exact Or.inl h
      · exact Or.inr (Or.inl h)
      · left
        rw [h, hid]
        exact hr
      · exact Or.inr (Or.inr h)
  · rw [hmap0]
    exact hinv.closed

theorem rangeLoop_inv (rootDir : File) (files : List File) :
    ∀ (k idx : Nat) (s : FilterState) (r : Bool × FilterState), Inv rootDir files s →
      rangeLoop rootDir k idx s = some r → Inv rootDir files r.2 := by
  intro k
  induction k with
  | zero =>
    intro idx s r hinv h
    simp only [rangeLoop] at h
    rw [← Option.some.inj h]
    exact hinv
  | succ k ih =>
    intro idx s r hinv h
    obtain ⟨file, p, ps, hget, hpar, hcase⟩ := rangeLoop_succ_some rootDir k idx s r h
    rcases hcase with ⟨hm, s1, hrm, rfl⟩ | ⟨_, hid, s1, hrm, hrec⟩ | ⟨_, _, hrec⟩
    · exact inv_insert rootDir files s s1 idx file p ps hinv hget hpar hm hrm
    · exact ih (idx + 1) s1 r (inv_discard rootDir files s s1 idx file hinv hget hid hrm) hrec
    · exact ih (idx + 1) s r hinv hrec

theorem rangeLoop_sublist (rootDir : File) :
    ∀ (k idx : Nat) (s : FilterState) (r : Bool × FilterState), s.len ≤ s.arr.length →
      rangeLoop rootDir k idx s = some r →
      r.2.filesToProcess.Sublist s.filesToProcess ∧ r.2.len ≤ s.len ∧
        (r.1 = true → r.2.len < s.len) ∧ r.2.arr.length = s.arr.length := by
  intro k
  induction k with
  | zero =>
    intro idx s r _ h
    simp only [rangeLoop] at h
    rw [← Option.some.inj h]
    exact ⟨List.Sublist.refl _, le_refl _, by simp, rfl⟩
  | succ k ih =>
    intro idx s r hlen h
    obtain ⟨file, p, ps, hget, _, hcase⟩ := rangeLoop_succ_some rootDir k idx s r h
    have hsplit : ∀ l1 l2 : List File, (l1 ++ l2).Sublist (l1 ++ file :: l2) := fun l1 l2 =>
      List.Sublist.append_left (List.sublist_cons_self file l2) l1
    rcases hcase with ⟨_, s1, hrm, rfl⟩ | ⟨_, _, s1, hrm, hrec⟩ | ⟨_, _, hrec⟩
    · obtain ⟨l1, l2, hw, hw1, _, hl, ha, _⟩ :=
        removeAt_split { s with syncDirFilesMap := mapSet s.syncDirFilesMap file.Id file } s1 idx
          file hlen hget hrm
      have hw0 : s.filesToProcess = l1 ++ file :: l2 := hw
      have hl0 : s1.len + 1 = s.len := hl
      refine ⟨?_, ?_, ?_, ha⟩
      · show s1.filesToProcess.Sublist s.filesToProcess
        rw [hw1, hw0]
        exact hsplit l1 l2
      · show s1.len ≤ s.len
        omega
      · intro _
        show s1.len < s.len
        omega
    · obtain ⟨l1, l2, hw0, hw1, _, hl0, ha0, _⟩ := removeAt_split s s1 idx file hlen hget hrm
      obtain ⟨h1, h2, h3, h4⟩ := ih (idx + 1) s1 r (by omega) hrec
      refine ⟨?_, by omega, fun hb => by have := h3 hb; omega, by omega⟩
      refine h1.trans ?_
      rw [hw1, hw0]
      exact hsplit l1 l2
    · exact ih (idx + 1) s r hlen hrec

theorem rangeLoop_len (rootDir : File) :
    ∀ (k idx : Nat) (s : FilterState) (r : Bool × FilterState),
      rangeLoop rootDir k idx s = some r → r.2.len ≤ s.len ∧ (r.1 = true → r.2.len < s.len) := by
  intro k
  induction k with
  | zero =>
    intro idx s r h
    simp only [rangeLoop] at h
    rw [← Option.some.inj h]
    exact ⟨le_refl _, by simp⟩
  | succ k ih =>
    intro idx s r h
    obtain ⟨file, p, ps, _, _, hcase⟩ := rangeLoop_succ_some rootDir k idx s r h
    rcases hcase with ⟨_, s1, hrm, rfl⟩ | ⟨_, _, s1, hrm, hrec⟩ | ⟨_, _, hrec⟩
    · have h1 := (removeAt_len_lt _ s1 idx hrm).1
      have h2 : s1.len + 1 = s.len := h1
      exact ⟨show s1.len ≤ s.len by omega, fun _ => show s1.len < s.len by omega⟩
    · have h1 := (removeAt_len_lt s s1 idx hrm).1
      obtain ⟨h2, h3⟩ := ih (idx + 1) s1 r hrec
      exact ⟨by omega, fun hb => by have := h3 hb; omega⟩
    · exact ih (idx + 1) s r hrec

/-- Whatever every pass preserves holds when the outer loop ends, and the loop ends with a
pass that did not set the flag. -/
theorem passes_induct (rootDir : File) (P : FilterState → Prop)
    (hP : ∀ s b s1, P s → pass rootDir s = some (b, s1) → P s1) :
    ∀ (fuel : Nat) (s s1 : FilterState), P s → passes rootDir fuel s = .done s1 →
      P s1 ∧ ∃ s0, P s0 ∧ pass rootDir s0 = some (false, s1) := by
  intro fuel
  induction fuel with
  | zero =>
    intro s s1 _ h
    simp [passes] at h
  | succ fuel ih =>
    intro s s1 hinv h
    unfold passes at h
    cases hp : pass rootDir s with
    | none => simp [hp] at h
    | some r =>
      obtain ⟨b, s2⟩ := r
      have hinv2 : P s2 := hP s b s2 hinv hp
      cases b with
      | true =>
        simp only [hp] at h
        exact ih s2 s1 hinv2 h
      | false =>
        simp only [hp] at h
        have h12 : s2 = s1 := by
          injection h
        subst h12
        exact ⟨hinv2, s, hinv, hp⟩

/-- The outer loop never runs out of passes when it is given more passes than the working
list has entries. -/
theorem passes_ne_outOfFuel (rootDir : File) :
    ∀ (fuel : Nat) (s : FilterState), s.len < fuel → passes rootDir fuel s ≠ .outOfFuel := by
  intro fuel
  induction fuel with
  | zero =>
    intro s h
    omega
  | succ fuel ih =>
    intro s hfuel
    unfold passes
    cases hp : pass rootDir s with
    | none => simp
    | some r =>
      obtain ⟨b, s2⟩ := r
      obtain ⟨_, h3⟩ := rangeLoop_len rootDir s.len 0 s (b, s2) hp
      cases b with
      | true =>
        simp only []
        have hlt : s2.len < s.len := h3 rfl
        exact ih s2 (by omega)
      | false => simp

/-- More passes than the working list has entries are never used. -/
theorem passes_fuel_irrelevant (rootDir : File) :
    ∀ (fuel1 fuel2 : Nat) (s : FilterState), s.len < fuel1 → s.len < fuel2 →
      passes rootDir fuel1 s = passes rootDir fuel2 s := by
  intro fuel1
  induction fuel1 with
  | zero =>
    intro fuel2 s h
    omega
  | succ fuel1 ih =>
    intro fuel2 s h1 h2
    cases fuel2 with
    | zero => omega
    | succ fuel2 =>
      unfold passes
      cases hp : pass rootDir s with
      | none => rfl
      | some r =>
        obtain ⟨b, s2⟩ := r
        obtain ⟨_, h3⟩ := rangeLoop_len rootDir s.len 0 s (b, s2) hp
        cases b with
        | true =>
          simp only []
          have hlt : s2.len < s.len := h3 rfl
          exact ih fuel2 s2 (by omega) (by omega)
        | false => rfl

/-! ## Listings with pairwise-distinct identifiers -/

theorem Inv.nodup_work {rootDir : File} {files : List File} {s : FilterState}
    (hinv : Inv rootDir files s) (hnd : (ids files).Nodup) : (ids s.filesToProcess).Nodup :=
  (List.Sublist.map File.Id hinv.sub).nodup hnd

theorem rangeLoop_disj (rootDir : File) (files : List File) (hnd : (ids files).Nodup) :
    ∀ (k idx : Nat) (s : FilterState) (r : Bool × FilterState), Inv rootDir files s →
      Disj rootDir s → rangeLoop rootDir k idx s = some r → Disj rootDir r.2 := by
  intro k
  induction k with
  | zero =>
    intro idx s r _ hd h
    simp only [rangeLoop] at h
    rw [← Option.some.inj h]
    exact hd
  | succ k ih =>
    intro idx s r hinv hd h
    obtain ⟨file, p, ps, hget, hpar, hcase⟩ := rangeLoop_succ_some rootDir k idx s r h
    have hndw := hinv.nodup_work hnd
    rcases hcase with ⟨hm, s1, hrm, rfl⟩ | ⟨_, hid, s1, hrm, hrec⟩ | ⟨_, _, hrec⟩
    · obtain ⟨l1, l2, hw, hw1, _, _, _, hmap⟩ :=
        removeAt_split { s with syncDirFilesMap := mapSet s.syncDirFilesMap file.Id file } s1 idx
          file hinv.len_le hget hrm
      have hw0 : s.filesToProcess = l1 ++ file :: l2 := hw
      have hmap0 : s1.syncDirFilesMap = mapSet s.syncDirFilesMap file.Id file := hmap
      intro id hid1 hid2
      show id = rootDir.Id
      have hid1q : id ∈ ids s1.filesToProcess := hid1
      have hid2q : id ∈ keys s1.syncDirFilesMap := hid2
      rw [hw1] at hid1q
      rw [hmap0, mem_keys_mapSet] at hid2q
      rw [hw0] at hndw
      simp only [ids, List.map_append, List.map_cons, List.mem_append] at hid1q hndw
      have hnot : file.Id ∉ List.map File.Id l1 ∧ file.Id ∉ List.map File.Id l2 := by
        rw [List.nodup_append] at hndw
        obtain ⟨_, h2, h3⟩ := hndw
        rw [List.nodup_cons] at h2
        refine ⟨fun hc => ?_, h2.1⟩
        exact h3 hc (List.mem_cons_self _ _)
      rcases hid2q with rfl | hk
      · rcases hid1q with h | h
        · exact absurd h hnot.1
        · exact absurd h hnot.2
      · apply hd id _ hk
        rw [hw0]
        simp only [ids, List.map_append, List.map_cons, List.mem_append, List.mem_cons]
        tauto
    · obtain ⟨l1, l2, hw0, hw1, _, _, _, hmap0⟩ :=
        removeAt_split s s1 idx file hinv.len_le hget hrm
      refine ih (idx + 1) s1 r (inv_discard rootDir files s s1 idx file hinv hget hid hrm) ?_ hrec
      intro id hid1 hid2
      rw [hmap0] at hid2
      apply hd id _ hid2
      rw [hw1] at hid1
      rw [hw0]
      simp only [ids, List.map_append, List.map_cons, List.mem_append, List.mem_cons] at hid1 ⊢
      tauto
    · exact ih (idx + 1) s r hinv hd hrec

/-- A pass that does not set the flag leaves no entry of the root in the working list. -/
theorem rangeLoop_final (rootDir : File) (files : List File) (hnd : (ids files).Nodup) :
    ∀ (k idx : Nat) (s s1 : FilterState), Inv rootDir files s → k + idx = s.len →
      (∀ f ∈ s.filesToProcess.take idx, f.Id ≠ rootDir.Id) →
      rangeLoop rootDir k idx s = some (false, s1) → rootDir.Id ∉ ids s1.filesToProcess := by
  intro k
  induction k with
  | zero =>
    intro idx s s1 hinv hk hq h
    simp only [rangeLoop] at h
    have h1 : s = s1 := by
      injection h with h
      injection h
    subst h1
    have hlen : s.filesToProcess.length = s.len := by
      have := hinv.len_le
      simp [FilterState.filesToProcess, this]
    have hidx : idx = s.filesToProcess.length := by omega
    rw [hidx, List.take_length] at hq
    intro hc
    simp only [ids, List.mem_map] at hc
    obtain ⟨f, hf, hfid⟩ := hc
    exact hq f hf hfid
  | succ k ih =>
    intro idx s s1 hinv hk hq h
    obtain ⟨file, p, ps, hget, hpar, hcase⟩ := rangeLoop_succ_some rootDir k idx s _ h
    have hndw := hinv.nodup_work hnd
    rcases hcase with ⟨_, s2, _, hr⟩ | ⟨_, hid, s2, hrm, hrec⟩ | ⟨_, hid, hrec⟩
    · simp at hr
    · obtain ⟨l1, l2, hw0, hw1, _, hl0, ha0, _⟩ :=
        removeAt_split s s2 idx file hinv.len_le hget hrm
      have hlen2 : s2.len ≤ s2.arr.length := by
        have := hinv.len_le
        omega
      obtain ⟨hsub, _⟩ := rangeLoop_sublist rootDir k (idx + 1) s2 _ hlen2 hrec
      have hsub2 : (ids s1.filesToProcess).Sublist (ids s2.filesToProcess) :=
        List.Sublist.map File.Id hsub
      intro hc
      have hc2 := hsub2.subset hc
      rw [hw0] at hndw
      rw [hw1] at hc2
      simp only [ids, List.map_append, List.map_cons, List.mem_append] at hc2 hndw
      rw [List.nodup_append] at hndw
      obtain ⟨_, h2, h3⟩ := hndw
      rw [List.nodup_cons] at h2
      rw [← hid] at hc2
      rcases hc2 with h | h
      · exact h3 h (List.mem_cons_self _ _)
      · exact h2.1 h
    · refine ih (idx + 1) s s1 hinv (by omega) ?_ hrec
      intro f hf
      have hlt : idx < s.len := by omega
      have hwget : s.filesToProcess[idx]? = some file := by
        show (s.arr.take s.len)[idx]? = some file
        rw [List.getElem?_take_of_lt hlt]
        exact hget
      rw [List.take_succ, hwget] at hf
      simp only [Option.toList, List.mem_append, List.mem_singleton] at hf
      rcases hf with hf | rfl
      · exact hq f hf
      · exact hid

/-- The state in which `filterSyncDirFiles` leaves its loops when it returns. -/
theorem filterSyncDirFiles_done (rootDir : File) (files inS notInS : List File)
    (h : filterSyncDirFiles rootDir files = .done (inS, notInS)) :
    ∃ s, Inv rootDir files s ∧ inS = mapValues s.syncDirFilesMap ∧ notInS = s.filesToProcess ∧
      ((ids files).Nodup → Disj rootDir s ∧ rootDir.Id ∉ ids s.filesToProcess) := by
  unfold filterSyncDirFiles filterSyncDirFilesFuel at h
  cases hp : passes rootDir (files.length + 1) (initState rootDir files) with
  | panic => simp [hp] at h
  | outOfFuel => simp [hp] at h
  | done s =>
    simp only [hp] at h
    have h1 : (mapValues s.syncDirFilesMap, s.filesToProcess) = (inS, notInS) := by
      injection h
    have h2 : mapValues s.syncDirFilesMap = inS := congrArg Prod.fst h1
    have h3 : s.filesToProcess = notInS := congrArg Prod.snd h1
    obtain ⟨hinv, _⟩ := passes_induct rootDir (Inv rootDir files)
      (fun s b s1 hs hpass => rangeLoop_inv rootDir files s.len 0 s (b, s1) hs hpass)
      _ _ s (inv_init rootDir files) hp
    refine ⟨s, hinv, h2.symm, h3.symm, fun hnd => ?_⟩
    obtain ⟨⟨_, hd⟩, s0, ⟨hinv0, _⟩, hlast⟩ := passes_induct rootDir
      (fun s => Inv rootDir files s ∧ Disj rootDir s)
      (fun s b s1 hs hpass =>
        ⟨rangeLoop_inv rootDir files s.len 0 s (b, s1) hs.1 hpass,
         rangeLoop_disj rootDir files hnd s.len 0 s (b, s1) hs.1 hs.2 hpass⟩)
      _ _ s ⟨inv_init rootDir files, by
        intro id _ hk
        simpa [initState, keys] using hk⟩ hp
    refine ⟨hd, ?_⟩
    exact rangeLoop_final rootDir files hnd s0.len 0 s0 s hinv0 rfl (by simp) hlast

theorem ids_mapValues (m : List (String × File)) (h : ∀ kv ∈ m, kv.2.Id = kv.1) :
    ids (mapValues m) = keys m := by
  simp only [ids, mapValues, keys, List.map_map]
  apply List.map_congr_left
  intro kv hkv
  exact h kv hkv

/-! ## The partition computed by `filterSyncDirFiles` -/

/-- C1: `filterSyncDirFiles` evaluated on the first scenario of the specification and on the
listing `[R, A, B]` with `R` the entry of the root, `A` a child of the root and `B` a child
of `A`.  On the scenario the result is `inSubtree = {B, A, R}`, `notInSubtree = {X}`.  On
`[R, A, B]` the function returns `inSubtree = {R}` and `notInSubtree = [A, B]`, although the
identifiers are pairwise distinct, the first parent of `A` is the root and the first parent
of `B` is `A`. -/
theorem filterSyncDirFiles_child_after_root_entry :
    filterSyncDirFiles rootR [fileA, fileB, fileX] = .done ([fileB, fileA, rootR], [fileX]) ∧
    filterSyncDirFiles rootR [entryR, fileA, fileB] = .done ([rootR], [fileA, fileB]) ∧
    (ids [entryR, fileA, fileB]).Nodup ∧
    fileA.Parents = [rootR.Id] ∧ fileB.Parents = [fileA.Id] ∧
    fileA.Id ≠ rootR.Id ∧ fileB.Id ≠ rootR.Id := by
  decide

/-- C2: when the identifiers of the listing are pairwise distinct and `filterSyncDirFiles`
returns, no identifier is both in `inSubtree` and in `notInSubtree`, an identifier is in one
of the two exactly when it is an identifier of the listing or the identifier of the root,
no identifier occurs twice in the two results taken together, and the identifier of the
root occurs in them once. -/
theorem filterSyncDirFiles_partition (rootDir : File) (files inS notInS : List File)
    (hnd : (ids files).Nodup)
    (h : filterSyncDirFiles rootDir files = .done (inS, notInS)) :
    (∀ id, id ∈ ids inS → id ∉ ids notInS) ∧
    (∀ id, (id ∈ ids inS ∨ id ∈ ids notInS) ↔ (id ∈ ids files ∨ id = rootDir.Id)) ∧
    (ids inS ++ ids notInS).Nodup ∧
    (ids inS ++ ids notInS).count rootDir.Id = 1 := by
  obtain ⟨s, hinv, rfl, rfl, hd⟩ := filterSyncDirFiles_done rootDir files inS notInS h
  obtain ⟨hdisj, hroot⟩ := hd hnd
  have hids : ids (mapValues s.syncDirFilesMap) = keys s.syncDirFilesMap :=
    ids_mapValues _ hinv.key_id
  rw [hids]
  have h1 : ∀ id, id ∈ keys s.syncDirFilesMap → id ∉ ids s.filesToProcess := by
    intro id hk hw
    have := hdisj id hw hk
    rw [this] at hw
    exact hroot hw
  have h3 : (keys s.syncDirFilesMap ++ ids s.filesToProcess).Nodup := by
    rw [List.nodup_append]
    exact ⟨hinv.keys_nodup, hinv.nodup_work hnd, fun a ha hb => h1 a ha hb⟩
  refine ⟨h1, hinv.cover, h3, ?_⟩
  apply List.count_eq_one_of_mem h3
  exact List.mem_append_left _ hinv.root_key

/-- Witness of C2 on the listing `[A, R, X, B]`, which contains the entry of the root. -/
theorem filterSyncDirFiles_partition_witness :
    filterSyncDirFiles rootR [fileA, entryR, fileX, fileB]
      = .done ([fileB, fileA, rootR], [fileX]) ∧
    (ids [fileB, fileA, rootR] ++ ids [fileX]).Nodup ∧
    (ids [fileB, fileA, rootR] ++ ids [fileX]).count rootR.Id = 1 :=
  ⟨by decide,
   (filterSyncDirFiles_partition rootR [fileA, entryR, fileX, fileB] [fileB, fileA, rootR]
      [fileX] (by decide) (by decide)).2.2⟩

/-- C3: when the identifiers of the listing are pairwise distinct and `filterSyncDirFiles`
returns, the identifier of the root occurs exactly once among the identifiers of `inSubtree`
and does not occur among those of `notInSubtree`; the listing may or may not contain an
entry of the root. -/
theorem filterSyncDirFiles_root_once (rootDir : File) (files inS notInS : List File)
    (hnd : (ids files).Nodup)
    (h : filterSyncDirFiles rootDir files = .done (inS, notInS)) :
    (ids inS).count rootDir.Id = 1 ∧ rootDir.Id ∉ ids notInS := by
  obtain ⟨s, hinv, rfl, rfl, hd⟩ := filterSyncDirFiles_done rootDir files inS notInS h
  obtain ⟨_, hroot⟩ := hd hnd
  rw [ids_mapValues _ hinv.key_id]
  exact ⟨List.count_eq_one_of_mem hinv.keys_nodup hinv.root_key, hroot⟩

/-- Witness of C3, on a listing with the entry of the root and on one without it. -/
theorem filterSyncDirFiles_root_once_witness :
    ((ids [fileA, rootR]).count rootR.Id = 1 ∧ rootR.Id ∉ ids ([] : List File)) ∧
    ((ids [fileA, rootR]).count rootR.Id = 1 ∧ rootR.Id ∉ ids [fileX]) :=
  ⟨filterSyncDirFiles_root_once rootR [fileA, entryR] [fileA, rootR] [] (by decide) (by decide),
   filterSyncDirFiles_root_once rootR [fileA, fileX] [fileA, rootR] [fileX] (by decide)
     (by decide)⟩

/-- C4: `filterSyncDirFiles` evaluated on the listing `[A, B]` (`A` a child of the root, `B`
a child of `A`) and on the same listing with the entry of the root put in front.  Without
the entry the result is `inSubtree = {B, A, R}`, `notInSubtree = {}`; with it the result is
`inSubtree = {R}`, `notInSubtree = [A, B]`.  On `[R, A]` the function panics, both when the
entry of the root has a parent and when it has none. -/
theorem filterSyncDirFiles_root_entry_inserted :
    filterSyncDirFiles rootR [fileA, fileB] = .done ([fileB, fileA, rootR], []) ∧
    filterSyncDirFiles rootR (entryR :: [fileA, fileB]) = .done ([rootR], [fileA, fileB]) ∧
    (ids [fileA, fileB]).Nodup ∧ rootR.Id ∉ ids [fileA, fileB] ∧
    filterSyncDirFiles rootR [fileA] = .done ([fileA, rootR], []) ∧
    filterSyncDirFiles rootR [entryR, fileA] = .panic ∧
    filterSyncDirFiles rootR [entryRNoParents, fileA] = .panic := by
  decide

/-- C5: a pass of `filterSyncDirFiles` that sets `foundSyncDirFile` leaves `filesToProcess`
strictly shorter, whatever the state it starts in, and so the outer loop ends: for every
root and every listing, `len(files) + 1` passes are enough, a larger bound gives the same
result, and the function ends with a result or a panic. -/
theorem filterSyncDirFiles_terminates (rootDir : File) (files : List File) :
    (∀ s s1 : FilterState, pass rootDir s = some (true, s1) → s1.len < s.len) ∧
    (∀ fuel, files.length < fuel →
      filterSyncDirFilesFuel fuel rootDir files = filterSyncDirFiles rootDir files) ∧
    filterSyncDirFiles rootDir files ≠ .outOfFuel := by
  refine ⟨?_, ?_, ?_⟩
  · intro s s1 hp
    exact (rangeLoop_len rootDir s.len 0 s (true, s1) hp).2 rfl
  · intro fuel hfuel
    unfold filterSyncDirFiles filterSyncDirFilesFuel
    rw [passes_fuel_irrelevant rootDir fuel (files.length + 1) (initState rootDir files) hfuel
      (Nat.lt_succ_self _)]
  · unfold filterSyncDirFiles filterSyncDirFilesFuel
    have h := passes_ne_outOfFuel rootDir (files.length + 1) (initState rootDir files)
      (Nat.lt_succ_self _)
    cases hp : passes rootDir (files.length + 1) (initState rootDir files) with
    | done s => simp
    | panic => simp
    | outOfFuel => exact absurd hp h

/-- Witness of C5 on a listing whose parent links form a cycle, `P` in `Q` and `Q` in `P`. -/
theorem filterSyncDirFiles_terminates_witness :
    filterSyncDirFiles rootR [fileP, fileA, fileQ] = .done ([fileA, rootR], [fileP, fileQ]) ∧
    (FilterState.mk [fileP, fileQ, fileQ] 2 [("A", fileA), ("R", rootR)]).len
      < (initState rootR [fileP, fileA, fileQ]).len ∧
    filterSyncDirFilesFuel 10 rootR [fileP, fileA, fileQ]
      = filterSyncDirFiles rootR [fileP, fileA, fileQ] :=
  ⟨by decide,
   (filterSyncDirFiles_terminates rootR [fileP, fileA, fileQ]).1
     (initState rootR [fileP, fileA, fileQ])
     (FilterState.mk [fileP, fileQ, fileQ] 2 [("A", fileA), ("R", rootR)]) (by decide),
   (filterSyncDirFiles_terminates rootR [fileP, fileA, fileQ]).2.1 10 (by decide)⟩

/-- C6: `filterSyncDirFiles` evaluated on listings with a file that has no parents: the read
of `file.Parents[0]` panics, so no result is returned, neither when the file is alone nor
when it stands next to a child of the root. -/
theorem filterSyncDirFiles_no_parents :
    filterSyncDirFiles rootR [fileOrphan] = .panic ∧
    filterSyncDirFiles rootR [fileOrphan, fileA] = .panic ∧
    fileOrphan.Parents = [] ∧ fileOrphan.Id ≠ rootR.Id := by
  decide

/-! ## `findSyncRoot` -/

theorem mapHas_iff_mapGet? {β : Type} (m : List (String × β)) (k : String) :
    mapHas m k = true ↔ ∃ v, mapGet? m k = some v := by
  induction m with
  | nil => simp [mapHas, mapGet?]
  | cons kv m ih =>
    by_cases h : kv.1 = k
    · simp [mapHas, mapGet?, List.find?, h]
    · have hb : (kv.1 == k) = false := by simpa using h
      simp only [mapHas, mapGet?, List.any_cons, List.find?_cons, hb, Bool.false_or] at ih ⊢
      exact ih

/-- C7: `findSyncRoot` returns the fetched file, as it was fetched, exactly when the fetch
succeeds, the file is a directory and its `appProperties` have the key `syncRoot`, whatever
the value; otherwise it returns an error: the error of the fetch when the fetch fails, the
error of a file that is not a directory, or the error of a directory without `syncRoot`. -/
theorem findSyncRoot_spec {σ : Type} (svc : Service σ) (st : σ) (rootId : String) :
    (∀ f, (findSyncRoot svc st rootId).1 = .ok f ↔
      ((svc.filesGet st rootId).1 = .ok f ∧ svc.isDir f = true ∧
        ∃ v, mapGet? f.AppProperties "syncRoot" = some v)) ∧
    (∀ e, (svc.filesGet st rootId).1 = .error e →
      (findSyncRoot svc st rootId).1 = .error ("Failed to find root dir: " ++ e)) ∧
    (∀ f, (svc.filesGet st rootId).1 = .ok f → svc.isDir f = false →
      (findSyncRoot svc st rootId).1 = .error "Provided root id is not a directory") ∧
    (∀ f, (svc.filesGet st rootId).1 = .ok f → svc.isDir f = true →
      mapGet? f.AppProperties "syncRoot" = none →
      (findSyncRoot svc st rootId).1
        = .error ("Root dir with id " ++ rootId ++ " is not a sync root")) ∧
    (findSyncRoot svc st rootId).2 = (svc.filesGet st rootId).2 := by
  unfold findSyncRoot
  cases hget : svc.filesGet st rootId with
  | mk res st1 =>
    cases res with
    | error e => simp
    | ok g =>
      have hk := mapHas_iff_mapGet? g.AppProperties "syncRoot"
      by_cases hdir : svc.isDir g = true
      · by_cases hkey : mapHas g.AppProperties "syncRoot" = true
        · have hv := hk.mp hkey
          simp only [hdir, hkey, Bool.not_true, Bool.false_eq_true, if_false, if_true]
          refine ⟨?_, ?_, ?_, ?_, trivial⟩
          · intro f
            constructor
            · intro h
              have hfg : g = f := by injection h
              subst hfg
              exact ⟨rfl, hdir, hv⟩
            · intro h
              exact h.1
          · intro e h
            simp at h
          · intro f h hf
            have hfg : g = f := by injection h
            subst hfg
            rw [hdir] at hf
            simp at hf
          · intro f h _ hnone
            have hfg : g = f := by injection h
            subst hfg
            obtain ⟨v, hv⟩ := hv
            rw [hnone] at hv
            simp at hv
        · have hkey2 : mapHas g.AppProperties "syncRoot" = false := by simpa using hkey
          simp only [hdir, hkey2, Bool.not_true, Bool.false_eq_true, if_false]
          refine ⟨?_, ?_, ?_, ?_, trivial⟩
          · intro f
            constructor
            · intro h
              simp at h
            · rintro ⟨h, _, hv⟩
              have hfg : g = f := by injection h
              subst hfg
              exact absurd (hk.mpr hv) hkey
          · intro e h
            simp at h
          · intro f h hf
            have hfg : g = f := by injection h
            subst hfg
            rw [hdir] at hf
            simp at hf
          · intro f _ _ _
            trivial
      · have hdir2 : svc.isDir g = false := by simpa using hdir
        simp only [hdir2, Bool.not_false, if_true]
        refine ⟨?_, ?_, ?_, ?_, trivial⟩
        · intro f
          constructor
          · intro h
            simp at h
          · rintro ⟨h, hd, _⟩
            have hfg : g = f := by injection h
            subst hfg
            rw [hdir2] at hd
            simp at hd
        · intro e h
          simp at h
        · intro f _ _
          trivial
        · intro f h hf
          have hfg : g = f := by injection h
          subst hfg
          rw [hdir2] at hf
          simp at hf

/-- Witness of C7: a sync root whose `syncRoot` is the empty string is returned as fetched; an
unknown identifier, a file that is not a directory and a directory without `syncRoot` give
the three errors. -/
theorem findSyncRoot_spec_witness :
    (findSyncRoot (exampleStore [rootY, plainDir, plainFile] []) () "rootY").1 = .ok rootY ∧
    (findSyncRoot (exampleStore [rootY, plainDir, plainFile] []) () "nope").1
      = .error "Failed to find root dir: File not found" ∧
    (findSyncRoot (exampleStore [rootY, plainDir, plainFile] []) () "F").1
      = .error "Provided root id is not a directory" ∧
    (findSyncRoot (exampleStore [rootY, plainDir, plainFile] []) () "S").1
      = .error "Root dir with id S is not a sync root" :=
  ⟨((findSyncRoot_spec (exampleStore [rootY, plainDir, plainFile] []) () "rootY").1 rootY).mpr
      ⟨rfl, by decide, "", by decide⟩,
   (findSyncRoot_spec (exampleStore [rootY, plainDir, plainFile] []) () "nope").2.1
      "File not found" rfl,
   (findSyncRoot_spec (exampleStore [rootY, plainDir, plainFile] []) () "F").2.2.1
      plainFile rfl (by decide),
   (findSyncRoot_spec (exampleStore [rootY, plainDir, plainFile] []) () "S").2.2.2.1
      plainDir rfl (by decide) (by decide)⟩

/-! ## The loops of `FixSyncHierarchy` -/

theorem updateSyncDirFiles_real {σ : Type} (svc : Service σ) (args : FixSyncHierarchyArgs)
    (rootDir : File) (hdry : args.DryRun = false)
    (hok : ∀ st id props, ∃ f, (svc.filesUpdate st id props).1 = .ok f) :
    ∀ (files : List File) (st : σ),
      (updateSyncDirFiles svc args rootDir files st).err = none ∧
      (updateSyncDirFiles svc args rootDir files st).calls
        = (files.filter (selectedForUpdate rootDir)).map (updateCall args.RootId) ∧
      (updateSyncDirFiles svc args rootDir files st).out
        = (files.filter (selectedForUpdate rootDir)).map (updateLine args.RootId) := by
  intro files
  induction files with
  | nil =>
    intro st
    simp [updateSyncDirFiles]
  | cons file rest ih =>
    intro st
    unfold updateSyncDirFiles
    by_cases hc : syncRootIdOf file = rootDir.Id ∨ file.Id = rootDir.Id
    · have hsel : selectedForUpdate rootDir file = false := by simp [selectedForUpdate, hc]
      simp only [hc, if_true, List.filter_cons, hsel, Bool.false_eq_true, if_false]
      exact ih st
    · have hsel : selectedForUpdate rootDir file = true := by simp [selectedForUpdate, hc]
      obtain ⟨f, hf⟩ := hok st file.Id [("syncRootId", args.RootId)]
      cases hu : svc.filesUpdate st file.Id [("syncRootId", args.RootId)] with
      | mk res st1 =>
        rw [hu] at hf
        have hres : res = .ok f := hf
        subst hres
        obtain ⟨h1, h2, h3⟩ := ih st1
        simp only [hc, if_false, hdry, Bool.false_eq_true, List.filter_cons, hsel, if_true,
          List.map_cons, h1, h2, h3, updateCall, updateLine]
        exact ⟨trivial, trivial, trivial⟩

theorem updateSyncDirFiles_dry {σ : Type} (svc : Service σ) (args : FixSyncHierarchyArgs)
    (rootDir : File) (hdry : args.DryRun = true) :
    ∀ (files : List File) (st : σ),
      (updateSyncDirFiles svc args rootDir files st).err = none ∧
      (updateSyncDirFiles svc args rootDir files st).calls = [] ∧
      (updateSyncDirFiles svc args rootDir files st).state = st ∧
      (updateSyncDirFiles svc args rootDir files st).out
        = (files.filter (selectedForUpdate rootDir)).map (updateLine args.RootId) := by
  intro files
  induction files with
  | nil =>
    intro st
    simp [updateSyncDirFiles]
  | cons file rest ih =>
    intro st
    unfold updateSyncDirFiles
    obtain ⟨h1, h2, h3, h4⟩ := ih st
    by_cases hc : syncRootIdOf file = rootDir.Id ∨ file.Id = rootDir.Id
    · have hsel : selectedForUpdate rootDir file = false := by simp [selectedForUpdate, hc]
      simp only [hc, if_true, List.filter_cons, hsel, Bool.false_eq_true, if_false]
      exact ih st
    · have hsel : selectedForUpdate rootDir file = true := by simp [selectedForUpdate, hc]
      simp only [hc, if_false, hdry, List.filter_cons, hsel, if_true,
        List.map_cons, h1, h2, h3, h4, updateLine]
      exact ⟨trivial, trivial, trivial, trivial⟩

theorem clearNonSyncDirFiles_real {σ : Type} (svc : Service σ) (args : FixSyncHierarchyArgs)
    (hdry : args.DryRun = false)
    (hok : ∀ st id props, ∃ f, (svc.filesUpdate st id props).1 = .ok f) :
    ∀ (files : List File) (st : σ),
      (clearNonSyncDirFiles svc args files st).err = none ∧
      (clearNonSyncDirFiles svc args files st).calls
        = (files.filter selectedForClear).map clearCall ∧
      (clearNonSyncDirFiles svc args files st).out
        = (files.filter selectedForClear).map clearLine := by
  intro files
  induction files with
  | nil =>
    intro st
    simp [clearNonSyncDirFiles]
  | cons file rest ih =>
    intro st
    unfold clearNonSyncDirFiles
    by_cases hc : mapGet? file.AppProperties "syncRootId" = some ""
    · have hsel : selectedForClear file = false := by simp [selectedForClear, hc]
      simp only [hc, if_true, List.filter_cons, hsel, Bool.false_eq_true, if_false]
      exact ih st
    · have hsel : selectedForClear file = true := by simp [selectedForClear, hc]
      obtain ⟨f, hf⟩ := hok st file.Id [("syncRootId", "")]
      cases hu : svc.filesUpdate st file.Id [("syncRootId", "")] with
      | mk res st1 =>
        rw [hu] at hf
        have hres : res = .ok f := hf
        subst hres
        obtain ⟨h1, h2, h3⟩ := ih st1
        simp only [hc, if_false, hdry, Bool.false_eq_true, List.filter_cons, hsel, if_true,
          List.map_cons, h1, h2, h3, clearCall, clearLine]
        exact ⟨trivial, trivial, trivial⟩

theorem clearNonSyncDirFiles_dry {σ : Type} (svc : Service σ) (args : FixSyncHierarchyArgs)
    (hdry : args.DryRun = true) :
    ∀ (files : List File) (st : σ),
      (clearNonSyncDirFiles svc args files st).err = none ∧
      (clearNonSyncDirFiles svc args files st).calls = [] ∧
      (clearNonSyncDirFiles svc args files st).state = st ∧
      (clearNonSyncDirFiles svc args files st).out
        = (files.filter selectedForClear).map clearLine := by
  intro files
  induction files with
  | nil =>
    intro st
    simp [clearNonSyncDirFiles]
  | cons file rest ih =>
    intro st
    unfold clearNonSyncDirFiles
    obtain ⟨h1, h2, h3, h4⟩ := ih st
    by_cases hc : mapGet? file.AppProperties "syncRootId" = some ""
    · have hsel : selectedForClear file = false := by simp [selectedForClear, hc]
      simp only [hc, if_true, List.filter_cons, hsel, Bool.false_eq_true, if_false]
      exact ih st
    · have hsel : selectedForClear file = true := by simp [selectedForClear, hc]
      simp only [hc, if_false, hdry, List.filter_cons, hsel, if_true,
        List.map_cons, h1, h2, h3, h4, clearLine]
      exact ⟨trivial, trivial, trivial, trivial⟩

/-- A run of `FixSyncHierarchy` with `DryRun` off in which the root is resolved, the listing
succeeds, `filterSyncDirFiles` returns and every update succeeds: the calls and the lines of
the run. -/
theorem FixSyncHierarchy_real {σ : Type} (svc : Service σ) (args : FixSyncHierarchyArgs)
    (st st1 st2 : σ) (rootDir : File) (files inS notInS : List File)
    (hdry : args.DryRun = false)
    (hok : ∀ s id props, ∃ f, (svc.filesUpdate s id props).1 = .ok f)
    (hroot : findSyncRoot svc st args.RootId = (.ok rootDir, st1))
    (hlist : svc.listAllFiles st1 = (.ok files, st2))
    (hfilter : filterSyncDirFiles rootDir files = .done (inS, notInS)) :
    (FixSyncHierarchy svc args st).calls
      = [Call.get args.RootId, Call.listAll]
        ++ (inS.filter (selectedForUpdate rootDir)).map (updateCall args.RootId)
        ++ (notInS.filter selectedForClear).map clearCall ∧
    (FixSyncHierarchy svc args st).out
      = headLines args ++ [LogLine.collecting, LogLine.found files.length]
        ++ (inS.filter (selectedForUpdate rootDir)).map (updateLine args.RootId)
        ++ (notInS.filter selectedForClear).map clearLine ++ [LogLine.finished] ∧
    (FixSyncHierarchy svc args st).result = .done none := by
  obtain ⟨h1, h2, h3⟩ := updateSyncDirFiles_real svc args rootDir hdry hok inS st2
  obtain ⟨k1, k2, k3⟩ := clearNonSyncDirFiles_real svc args hdry hok notInS
    (updateSyncDirFiles svc args rootDir inS st2).state
  simp only [FixSyncHierarchy, hroot, hlist, hfilter, h1, h2, h3, k1, k2, k3]
  exact ⟨trivial, trivial, trivial⟩

/-- A run of `FixSyncHierarchy` with `DryRun` on in which the root is resolved, the listing
succeeds and `filterSyncDirFiles` returns: the calls and the lines of the run. -/
theorem FixSyncHierarchy_dry {σ : Type} (svc : Service σ) (args : FixSyncHierarchyArgs)
    (st st1 st2 : σ) (rootDir : File) (files inS notInS : List File)
    (hdry : args.DryRun = true)
    (hroot : findSyncRoot svc st args.RootId = (.ok rootDir, st1))
    (hlist : svc.listAllFiles st1 = (.ok files, st2))
    (hfilter : filterSyncDirFiles rootDir files = .done (inS, notInS)) :
    (FixSyncHierarchy svc args st).calls = [Call.get args.RootId, Call.listAll] ∧
    (FixSyncHierarchy svc args st).out
      = headLines args ++ [LogLine.collecting, LogLine.found files.length]
        ++ (inS.filter (selectedForUpdate rootDir)).map (updateLine args.RootId)
        ++ (notInS.filter selectedForClear).map clearLine ++ [LogLine.finished] ∧
    (FixSyncHierarchy svc args st).result = .done none ∧
    (FixSyncHierarchy svc args st).state = st2 := by
  obtain ⟨h1, h2, h3, h4⟩ := updateSyncDirFiles_dry svc args rootDir hdry inS st2
  obtain ⟨k1, k2, k3, k4⟩ := clearNonSyncDirFiles_dry svc args hdry notInS st2
  simp only [FixSyncHierarchy, hroot, hlist, hfilter, h1, h2, h3, h4, k1, k2, k3, k4]
  simp

theorem mem_clearNonSyncDirFiles_calls {σ : Type} (svc : Service σ)
    (args : FixSyncHierarchyArgs) :
    ∀ (files : List File) (st : σ) (c : Call),
      c ∈ (clearNonSyncDirFiles svc args files st).calls → ∃ f ∈ files, c = clearCall f := by
  intro files
  induction files with
  | nil =>
    intro st c hc
    simp [clearNonSyncDirFiles] at hc
  | cons file rest ih =>
    intro st c hc
    unfold clearNonSyncDirFiles at hc
    have hrest : ∀ st1, c ∈ (clearNonSyncDirFiles svc args rest st1).calls →
        ∃ f ∈ file :: rest, c = clearCall f := by
      intro st1 h
      obtain ⟨f, hf, hcf⟩ := ih st1 c h
      exact ⟨f, List.mem_cons_of_mem _ hf, hcf⟩
    by_cases hsk : mapGet? file.AppProperties "syncRootId" = some ""
    · simp only [hsk, if_true] at hc
      exact hrest st hc
    · simp only [hsk, if_false] at hc
      by_cases hdry : args.DryRun = true
      · simp only [hdry, if_true] at hc
        exact hrest st hc
      · simp only [hdry, Bool.false_eq_true, if_false] at hc
        cases hu : svc.filesUpdate st file.Id [("syncRootId", "")] with
        | mk res st1 =>
          rw [hu] at hc
          cases res with
          | error e =>
            simp only [List.mem_singleton] at hc
            exact ⟨file, List.mem_cons_self _ _, hc⟩
          | ok g =>
            simp only [List.mem_cons] at hc
            rcases hc with hc | hc
            · exact ⟨file, List.mem_cons_self _ _, hc⟩
            · exact hrest st1 hc

/-! ## The corrections issued by `FixSyncHierarchy` -/

/-- The reading of the specification and the condition of the code select the same files
when the identifier of the root is not the empty string. -/
theorem specSelectedForUpdate_eq (rootDir f : File) (hne : rootDir.Id ≠ "") :
    specSelectedForUpdate rootDir f = selectedForUpdate rootDir f := by
  unfold specSelectedForUpdate selectedForUpdate syncRootIdOf
  cases hv : mapGet? f.AppProperties "syncRootId" with
  | none =>
    have h1 : ¬ ("" = rootDir.Id) := fun h => hne h.symm
    by_cases h2 : f.Id = rootDir.Id <;> simp [h1, h2]
  | some v =>
    by_cases h1 : v = rootDir.Id <;> by_cases h2 : f.Id = rootDir.Id <;> simp [h1, h2]

/-- C8: with `DryRun` off, every update succeeding and the resolved root having the requested
identifier, which like every identifier of the store is not the empty string, the calls of a
run are the fetch of the root, the listing, one update setting `syncRootId` to the root's
identifier for each file of `inSubtree` that is not the root and whose `syncRootId` is absent
or differs from the root's identifier, and after these only calls of the second loop, which
are calls for files of `notInSubtree`.  No update is issued for the root or for a file of
`inSubtree` whose `syncRootId` is the root's identifier. -/
theorem FixSyncHierarchy_updates_inSubtree {σ : Type} (svc : Service σ)
    (args : FixSyncHierarchyArgs) (st st1 st2 : σ) (rootDir : File)
    (files inS notInS : List File)
    (hdry : args.DryRun = false)
    (hok : ∀ s id props, ∃ f, (svc.filesUpdate s id props).1 = .ok f)
    (hroot : findSyncRoot svc st args.RootId = (.ok rootDir, st1))
    (hid : rootDir.Id = args.RootId)
    (hne : rootDir.Id ≠ "")
    (hlist : svc.listAllFiles st1 = (.ok files, st2))
    (hfilter : filterSyncDirFiles rootDir files = .done (inS, notInS)) :
    (FixSyncHierarchy svc args st).calls
      = [Call.get args.RootId, Call.listAll]
        ++ (inS.filter (specSelectedForUpdate rootDir)).map
            (fun f => Call.update f.Id [("syncRootId", rootDir.Id)])
        ++ (clearNonSyncDirFiles svc args notInS
              (updateSyncDirFiles svc args rootDir inS st2).state).calls ∧
    (∀ c ∈ (clearNonSyncDirFiles svc args notInS
              (updateSyncDirFiles svc args rootDir inS st2).state).calls,
        ∃ f ∈ notInS, c = Call.update f.Id [("syncRootId", "")]) ∧
    (∀ f v, mapGet? f.AppProperties "syncRootId" = some v →
      (specSelectedForUpdate rootDir f = true ↔ f.Id ≠ rootDir.Id ∧ v ≠ rootDir.Id)) ∧
    (∀ f, mapGet? f.AppProperties "syncRootId" = none →
      (specSelectedForUpdate rootDir f = true ↔ f.Id ≠ rootDir.Id)) := by
  obtain ⟨h1, _, _⟩ := FixSyncHierarchy_real svc args st st1 st2 rootDir files inS notInS hdry hok
    hroot hlist hfilter
  obtain ⟨_, k2, _⟩ := clearNonSyncDirFiles_real svc args hdry hok notInS
    (updateSyncDirFiles svc args rootDir inS st2).state
  have hsame : specSelectedForUpdate rootDir = selectedForUpdate rootDir :=
    funext (fun f => specSelectedForUpdate_eq rootDir f hne)
  refine ⟨?_, ?_, ?_, ?_⟩
  · rw [h1, k2, hid, hsame]
    rfl
  · intro c hc
    exact mem_clearNonSyncDirFiles_calls svc args notInS _ c hc
  · intro f v hv
    simp only [specSelectedForUpdate, hv, Bool.and_eq_true, decide_eq_true_eq]
  · intro f hv
    simp only [specSelectedForUpdate, hv, Bool.and_true, decide_eq_true_eq]

/-- Witness of C8 on the third scenario: `C` has `syncRootId = "rootX"` and lies in the
directory `rootY`, and the run issues one update of `C` to `rootY`. -/
theorem FixSyncHierarchy_updates_inSubtree_witness :
    (FixSyncHierarchy (exampleStore [rootY] [fileC]) { RootId := "rootY", DryRun := false }
        ()).calls
      = [Call.get "rootY", Call.listAll, Call.update "C" [("syncRootId", "rootY")]] ∧
    (FixSyncHierarchy (exampleStore [rootY] [fileC]) { RootId := "rootY", DryRun := false }
        ()).calls
      = [Call.get "rootY", Call.listAll]
        ++ ([fileC, rootY].filter (specSelectedForUpdate rootY)).map
            (fun f => Call.update f.Id [("syncRootId", rootY.Id)])
        ++ (clearNonSyncDirFiles (exampleStore [rootY] [fileC])
              { RootId := "rootY", DryRun := false } []
              (updateSyncDirFiles (exampleStore [rootY] [fileC])
                { RootId := "rootY", DryRun := false } rootY [fileC, rootY] ()).state).calls :=
  ⟨by decide,
   (FixSyncHierarchy_updates_inSubtree (exampleStore [rootY] [fileC])
      { RootId := "rootY", DryRun := false } () () () rootY [fileC] [fileC, rootY] [] rfl
      (fun _ _ _ => ⟨_, rfl⟩) rfl rfl (by decide) rfl (by decide)).1⟩

/-- The edge that the condition on the identifier of the root excludes: were the empty string
the identifier of the resolved root, a file of `inSubtree` without `syncRootId` would get no
update, because line 49 reads the absent `syncRootId` as the empty string. -/
theorem FixSyncHierarchy_absent_syncRootId_empty_root :
    (findSyncRoot (exampleStore [rootEmptyId] [fileInEmptyId]) () "").1 = .ok rootEmptyId ∧
    filterSyncDirFiles rootEmptyId [fileInEmptyId] = .done ([fileInEmptyId, rootEmptyId], []) ∧
    fileInEmptyId.Id ≠ rootEmptyId.Id ∧
    mapGet? fileInEmptyId.AppProperties "syncRootId" = none ∧
    specSelectedForUpdate rootEmptyId fileInEmptyId = true ∧
    (FixSyncHierarchy (exampleStore [rootEmptyId] [fileInEmptyId])
        { RootId := "", DryRun := false } ()).result = .done none ∧
    (FixSyncHierarchy (exampleStore [rootEmptyId] [fileInEmptyId])
        { RootId := "", DryRun := false } ()).calls = [Call.get "", Call.listAll] ∧
    Call.update fileInEmptyId.Id [("syncRootId", rootEmptyId.Id)] ∉
      (FixSyncHierarchy (exampleStore [rootEmptyId] [fileInEmptyId])
        { RootId := "", DryRun := false } ()).calls := by
  refine ⟨rfl, by decide, by decide, by decide, by decide, by decide, by decide, by decide⟩

/-- C9: `FixSyncHierarchy` run with `DryRun` off on a listing of two files outside the
subtree of the root, `X` without the key `syncRootId` and `D` with `syncRootId = ""`: no
update is issued for `D`, and an update clearing `syncRootId` is issued for `X`, whose
`syncRootId` is absent. -/
theorem FixSyncHierarchy_clears_absent_syncRootId :
    filterSyncDirFiles rootR [fileX, fileD] = .done ([rootR], [fileX, fileD]) ∧
    mapGet? fileX.AppProperties "syncRootId" = none ∧
    mapGet? fileD.AppProperties "syncRootId" = some "" ∧
    (FixSyncHierarchy (exampleStore [rootR] [fileX, fileD])
        { RootId := "R", DryRun := false } ()).calls
      = [Call.get "R", Call.listAll, Call.update "X" [("syncRootId", "")]] ∧
    (FixSyncHierarchy (exampleStore [rootR] [fileX, fileD])
        { RootId := "R", DryRun := false } ()).out
      = [LogLine.starting, LogLine.searching, LogLine.collecting, LogLine.found 2,
         LogLine.clearing "X" "X" "", LogLine.finished] := by
  decide

/-! ## Dry runs -/

theorem filter_not_isUpdate_updateCalls (rootId : String) (l : List File) :
    (l.map (updateCall rootId)).filter (fun c => !c.isUpdate) = [] := by
  induction l with
  | nil => rfl
  | cons f l ih => simp [updateCall, Call.isUpdate]

theorem filter_not_isUpdate_clearCalls (l : List File) :
    (l.map clearCall).filter (fun c => !c.isUpdate) = [] := by
  induction l with
  | nil => rfl
  | cons f l ih => simp [clearCall, Call.isUpdate]

theorem decisions_append (l1 l2 : List LogLine) :
    decisions (l1 ++ l2) = decisions l1 ++ decisions l2 := by
  simp [decisions]

theorem decisions_headLines (args : FixSyncHierarchyArgs) : decisions (headLines args) = [] := by
  cases hd : args.DryRun <;> simp [decisions, headLines, hd]

/-- C10: for a store on which every update succeeds, the run of `FixSyncHierarchy` with
`DryRun` set returns what the run with `DryRun` unset returns, makes the calls of that run
that are not updates (the fetch of the root and the listing), makes no update call, writes
the same lines announcing corrections, with the same files, old values and target values,
and writes the same log but for the line that announces the dry run. -/
theorem FixSyncHierarchy_dryRun {σ : Type} (svc : Service σ) (rootId : String) (st : σ)
    (hok : ∀ s id props, ∃ f, (svc.filesUpdate s id props).1 = .ok f) :
    (FixSyncHierarchy svc { RootId := rootId, DryRun := true } st).result
      = (FixSyncHierarchy svc { RootId := rootId, DryRun := false } st).result ∧
    (FixSyncHierarchy svc { RootId := rootId, DryRun := true } st).calls
      = ((FixSyncHierarchy svc { RootId := rootId, DryRun := false } st).calls).filter
          (fun c => !c.isUpdate) ∧
    (∀ c ∈ (FixSyncHierarchy svc { RootId := rootId, DryRun := true } st).calls,
      c.isUpdate = false) ∧
    decisions (FixSyncHierarchy svc { RootId := rootId, DryRun := true } st).out
      = decisions (FixSyncHierarchy svc { RootId := rootId, DryRun := false } st).out ∧
    ((FixSyncHierarchy svc { RootId := rootId, DryRun := true } st).out).erase LogLine.dryRun
      = (FixSyncHierarchy svc { RootId := rootId, DryRun := false } st).out := by
  cases hroot : findSyncRoot svc st rootId with
  | mk res st1 =>
    cases res with
    | error e =>
      simp [FixSyncHierarchy, hroot, headLines, decisions, Call.isUpdate]
    | ok rootDir =>
      cases hlist : svc.listAllFiles st1 with
      | mk res2 st2 =>
        cases res2 with
        | error e =>
          simp [FixSyncHierarchy, hroot, hlist, headLines, decisions, Call.isUpdate]
        | ok files =>
          cases hfilter : filterSyncDirFiles rootDir files with
          | panic =>
            simp [FixSyncHierarchy, hroot, hlist, hfilter, headLines, decisions, Call.isUpdate]
          | outOfFuel =>
            simp [FixSyncHierarchy, hroot, hlist, hfilter, headLines, decisions, Call.isUpdate]
          | done r =>
            obtain ⟨inS, notInS⟩ := r
            obtain ⟨d1, d2, d3, _⟩ := FixSyncHierarchy_dry svc { RootId := rootId, DryRun := true }
              st st1 st2 rootDir files inS notInS rfl hroot hlist hfilter
            obtain ⟨r1, r2, r3⟩ := FixSyncHierarchy_real svc { RootId := rootId, DryRun := false }
              st st1 st2 rootDir files inS notInS rfl hok hroot hlist hfilter
            rw [d1, d2, d3, r1, r2, r3]
            refine ⟨rfl, ?_, ?_, ?_, ?_⟩
            · rw [List.filter_append, List.filter_append, filter_not_isUpdate_updateCalls,
                filter_not_isUpdate_clearCalls]
              simp [Call.isUpdate]
            · intro c hc
              simp only [List.mem_cons, List.mem_singleton, List.not_mem_nil, or_false] at hc
              rcases hc with rfl | rfl <;> rfl
            · simp only [decisions_append, decisions_headLines]
            · simp [headLines]

/-- Witness of C10: the dry run and the run proper on a store with `C` (to be set to `rootY`)
and `X` (to be cleared). -/
theorem FixSyncHierarchy_dryRun_witness :
    (FixSyncHierarchy (exampleStore [rootY] [fileC, fileX]) { RootId := "rootY", DryRun := true }
        ()).calls = [Call.get "rootY", Call.listAll] ∧
    (FixSyncHierarchy (exampleStore [rootY] [fileC, fileX]) { RootId := "rootY", DryRun := false }
        ()).calls = [Call.get "rootY", Call.listAll, Call.update "C" [("syncRootId", "rootY")],
          Call.update "X" [("syncRootId", "")]] ∧
    decisions (FixSyncHierarchy (exampleStore [rootY] [fileC, fileX])
        { RootId := "rootY", DryRun := true } ()).out
      = [LogLine.updating "C" "C" "rootX" "rootY", LogLine.clearing "X" "X" ""] ∧
    (FixSyncHierarchy (exampleStore [rootY] [fileC, fileX]) { RootId := "rootY", DryRun := true }
        ()).result
      = (FixSyncHierarchy (exampleStore [rootY] [fileC, fileX])
          { RootId := "rootY", DryRun := false } ()).result :=
  ⟨by decide, by decide, by decide,
   (FixSyncHierarchy_dryRun (exampleStore [rootY] [fileC, fileX]) "rootY" ()
      (fun _ _ _ => ⟨_, rfl⟩)).1⟩

/-! ## Listings without an entry of the root and without files that have no parent -/

/-- Whatever both kinds of removal preserve, the inner loop preserves. -/
theorem rangeLoop_preserves (rootDir : File) (P : FilterState → Prop)
    (hins : ∀ (s s1 : FilterState) (idx : Nat) (file : File) (p : String) (ps : List String),
      P s → s.arr[idx]? = some file → file.Parents = p :: ps →
      mapHas s.syncDirFilesMap p = true →
      removeAt { s with syncDirFilesMap := mapSet s.syncDirFilesMap file.Id file } idx = some s1 →
      P s1)
    (hdis : ∀ (s s1 : FilterState) (idx : Nat) (file : File),
      P s → s.arr[idx]? = some file → file.Id = rootDir.Id → removeAt s idx = some s1 → P s1) :
    ∀ (k idx : Nat) (s : FilterState) (r : Bool × FilterState), P s →
      rangeLoop rootDir k idx s = some r → P r.2 := by
  intro k
  induction k with
  | zero =>
    intro idx s r hP h
    simp only [rangeLoop] at h
    rw [← Option.some.inj h]
    exact hP
  | succ k ih =>
    intro idx s r hP h
    obtain ⟨file, p, ps, hget, hpar, hcase⟩ := rangeLoop_succ_some rootDir k idx s r h
    rcases hcase with ⟨hm, s1, hrm, rfl⟩ | ⟨_, hid, s1, hrm, hrec⟩ | ⟨_, _, hrec⟩
    · exact hins s s1 idx file p ps hP hget hpar hm hrm
    · exact ih (idx + 1) s1 r (hdis s s1 idx file hP hget hid hrm) hrec
    · exact ih (idx + 1) s r hP hrec

/-- The cell the range loop reads at an index below the length of the working list is the
entry of the working list at that index. -/
theorem getElem?_filesToProcess (s : FilterState) (idx : Nat) (h : idx < s.len) :
    s.filesToProcess[idx]? = s.arr[idx]? := by
  show (s.arr.take s.len)[idx]? = s.arr[idx]?
  exact List.getElem?_take_of_lt h

theorem mem_filesToProcess_of_getElem? (s : FilterState) (idx : Nat) (file : File)
    (h : idx < s.len) (hget : s.arr[idx]? = some file) : file ∈ s.filesToProcess := by
  rw [← getElem?_filesToProcess s idx h] at hget
  exact List.getElem?_mem hget

/-- On a listing in which every file has a parent and no file has the identifier of the
root, an inner loop that starts with the range over the whole working list does not panic. -/
theorem rangeLoop_isSome (rootDir : File) (files : List File)
    (hpar : ∀ f ∈ files, f.Parents ≠ []) (hid : ∀ f ∈ files, f.Id ≠ rootDir.Id) :
    ∀ (k idx : Nat) (s : FilterState), Inv rootDir files s → k + idx = s.len →
      ∃ r, rangeLoop rootDir k idx s = some r := by
  intro k
  induction k with
  | zero =>
    intro idx s _ _
    exact ⟨(false, s), rfl⟩
  | succ k ih =>
    intro idx s hinv hk
    have hlt : idx < s.len := by omega
    have hlt2 : idx < s.arr.length := lt_of_lt_of_le hlt hinv.len_le
    have hget : s.arr[idx]? = some s.arr[idx] := List.getElem?_eq_getElem hlt2
    have hmem : s.arr[idx] ∈ files :=
      hinv.sub.subset (mem_filesToProcess_of_getElem? s idx _ hlt hget)
    unfold rangeLoop
    simp only [hget]
    cases hp : (s.arr[idx]).Parents with
    | nil => exact absurd hp (hpar _ hmem)
    | cons p ps =>
      simp only []
      by_cases hm : mapHas s.syncDirFilesMap p = true
      · simp only [hm, if_true]
        have hrm : ∃ s1, removeAt
            { s with syncDirFilesMap := mapSet s.syncDirFilesMap (s.arr[idx]).Id s.arr[idx] } idx
              = some s1 := by
          unfold removeAt
          have hle : idx + 1 ≤ s.len := hlt
          simp only [hle, if_true]
          exact ⟨_, rfl⟩
        obtain ⟨s1, hs1⟩ := hrm
        rw [hs1]
        exact ⟨_, rfl⟩
      · simp only [hm, if_false, hid _ hmem]
        exact ih (idx + 1) s hinv (by omega)

theorem passes_done (rootDir : File) (files : List File)
    (hpar : ∀ f ∈ files, f.Parents ≠ []) (hid : ∀ f ∈ files, f.Id ≠ rootDir.Id) :
    ∀ (fuel : Nat) (s : FilterState), Inv rootDir files s → s.len < fuel →
      ∃ s1, passes rootDir fuel s = .done s1 := by
  intro fuel
  induction fuel with
  | zero =>
    intro s _ h
    omega
  | succ fuel ih =>
    intro s hinv hfuel
    obtain ⟨r, hr⟩ := rangeLoop_isSome rootDir files hpar hid s.len 0 s hinv rfl
    have hp : pass rootDir s = some r := hr
    obtain ⟨b, s2⟩ := r
    unfold passes
    rw [hp]
    cases b with
    | false => exact ⟨s2, rfl⟩
    | true =>
      simp only []
      have hlt : s2.len < s.len := (rangeLoop_len rootDir s.len 0 s (true, s2) hr).2 rfl
      exact ih s2 (rangeLoop_inv rootDir files s.len 0 s (true, s2) hinv hr) (by omega)

/-- C16: on a listing in which every file has at least one parent and no file has the
identifier of the root, `filterSyncDirFiles` returns: neither `file.Parents[0]` nor the two
slice expressions of the removals are out of range, in any pass. -/
theorem filterSyncDirFiles_no_panic (rootDir : File) (files : List File)
    (hpar : ∀ f ∈ files, f.Parents ≠ []) (hid : ∀ f ∈ files, f.Id ≠ rootDir.Id) :
    ∃ inS notInS, filterSyncDirFiles rootDir files = .done (inS, notInS) := by
  obtain ⟨s1, hs1⟩ := passes_done rootDir files hpar hid (files.length + 1)
    (initState rootDir files) (inv_init rootDir files) (Nat.lt_succ_self _)
  refine ⟨mapValues s1.syncDirFilesMap, s1.filesToProcess, ?_⟩
  unfold filterSyncDirFiles filterSyncDirFilesFuel
  rw [hs1]

/-- Witness of C16 on a listing with a cycle and with two files of the same identifier. -/
theorem filterSyncDirFiles_no_panic_witness :
    ∃ inS notInS,
      filterSyncDirFiles rootR [fileP, fileB, fileA, fileQ, fileA] = .done (inS, notInS) :=
  filterSyncDirFiles_no_panic rootR [fileP, fileB, fileA, fileQ, fileA] (by decide) (by decide)

/-! ## The number of passes -/

theorem passCount_le (rootDir : File) :
    ∀ (fuel : Nat) (s : FilterState), passCount rootDir fuel s ≤ s.len + 1 := by
  intro fuel
  induction fuel with
  | zero =>
    intro s
    simp [passCount]
  | succ fuel ih =>
    intro s
    unfold passCount
    cases hp : pass rootDir s with
    | none => simp
    | some r =>
      obtain ⟨b, s1⟩ := r
      cases b with
      | false => simp
      | true =>
        simp only []
        have hlt : s1.len < s.len := (rangeLoop_len rootDir s.len 0 s (true, s1) hp).2 rfl
        have := ih s1
        omega

theorem passCount_fuel_irrelevant (rootDir : File) :
    ∀ (fuel1 fuel2 : Nat) (s : FilterState), s.len < fuel1 → s.len < fuel2 →
      passCount rootDir fuel1 s = passCount rootDir fuel2 s := by
  intro fuel1
  induction fuel1 with
  | zero =>
    intro fuel2 s h
    omega
  | succ fuel1 ih =>
    intro fuel2 s h1 h2
    cases fuel2 with
    | zero => omega
    | succ fuel2 =>
      unfold passCount
      cases hp : pass rootDir s with
      | none => rfl
      | some r =>
        obtain ⟨b, s1⟩ := r
        cases b with
        | false => rfl
        | true =>
          simp only []
          have hlt : s1.len < s.len := (rangeLoop_len rootDir s.len 0 s (true, s1) hp).2 rfl
          rw [ih fuel2 s1 (by omega) (by omega)]

/-- C13, as it holds of the code: for every root and every listing, with or without cycles
among the first-parent links, `filterSyncDirFiles` starts at least one and at most
`len(files) + 1` passes of its outer loop; the count does not depend on the bound the model
puts on the number of passes. -/
theorem filterSyncDirFiles_passes_le (rootDir : File) (files : List File) :
    1 ≤ filterSyncDirFilesPasses rootDir files ∧
    filterSyncDirFilesPasses rootDir files ≤ files.length + 1 ∧
    ∀ fuel, files.length < fuel →
      passCount rootDir fuel (initState rootDir files) = filterSyncDirFilesPasses rootDir files := by
  refine ⟨?_, ?_, ?_⟩
  · unfold filterSyncDirFilesPasses passCount
    cases hp : pass rootDir (initState rootDir files) with
    | none => simp
    | some r =>
      obtain ⟨b, s1⟩ := r
      cases b <;> simp
  · exact passCount_le rootDir (files.length + 1) (initState rootDir files)
  · intro fuel hfuel
    exact passCount_fuel_irrelevant rootDir fuel (files.length + 1) (initState rootDir files)
      hfuel (Nat.lt_succ_self _)

/-- Witness of C13 as amended: three passes on the listing `[B, A]`, where `A` is a child of
the root and `B` a child of `A`. -/
theorem filterSyncDirFiles_passes_le_witness :
    filterSyncDirFilesPasses rootR [fileB, fileA] = 3 ∧
    passCount rootR 7 (initState rootR [fileB, fileA]) = filterSyncDirFilesPasses rootR [fileB, fileA] :=
  ⟨by decide, (filterSyncDirFiles_passes_le rootR [fileB, fileA]).2.2 7 (by decide)⟩

/-- Counterexample to C13 as stated: the listing `[A]`, with `A` a child of the root, has no
cycle (no file has a chain of first parents to its own identifier), and `filterSyncDirFiles`
makes two passes on it, one that moves `A` and one that finds nothing, which is more than
the length of the listing; on the empty listing it makes one pass. -/
theorem filterSyncDirFiles_passes_gt_length :
    filterSyncDirFilesPasses rootR [fileA] = 2 ∧
    filterSyncDirFiles rootR [fileA] = .done ([fileA, rootR], []) ∧
    (∀ f ∈ [fileA], ¬ Reach f.Id [fileA] f) ∧
    ¬ (filterSyncDirFilesPasses rootR [fileA] ≤ [fileA].length) ∧
    filterSyncDirFilesPasses rootR [] = 1 := by
  refine ⟨by decide, by decide, ?_, by decide, by decide⟩
  intro f hf hreach
  have hfA : f = fileA := by simpa using hf
  subst hfA
  cases hreach with
  | direct _ ps h => simp [fileA, listed] at h
  | step _ g ps h hg _ =>
    have hgA : g = fileA := by simpa using hg
    subst hgA
    simp [fileA, listed] at h

/-! ## The map is closed under first parents -/

theorem reachInv_init (rootDir : File) (files : List File) :
    ReachInv rootDir files (initState rootDir files) := by
  intro kv hkv
  left
  have h : kv = (rootDir.Id, rootDir) := by simpa [initState] using hkv
  rw [h]

theorem reachInv_insert (rootDir : File) (files : List File) (s s1 : FilterState) (idx : Nat)
    (file : File) (p : String) (ps : List String)
    (hP : Inv rootDir files s ∧ ReachInv rootDir files s)
    (hget : s.arr[idx]? = some file) (hpar : file.Parents = p :: ps)
    (hm : mapHas s.syncDirFilesMap p = true)
    (hrm : removeAt { s with syncDirFilesMap := mapSet s.syncDirFilesMap file.Id file } idx
      = some s1) : Inv rootDir files s1 ∧ ReachInv rootDir files s1 := by
  obtain ⟨hinv, hreach⟩ := hP
  refine ⟨inv_insert rootDir files s s1 idx file p ps hinv hget hpar hm hrm, ?_⟩
  obtain ⟨_, hlt⟩ := removeAt_len_lt _ s1 idx hrm
  have hlt0 : idx < s.len := hlt
  have hfile : file ∈ files := hinv.sub.subset (mem_filesToProcess_of_getElem? s idx file hlt0 hget)
  obtain ⟨_, _, _, _, _, _, _, hmap⟩ :=
    removeAt_split { s with syncDirFilesMap := mapSet s.syncDirFilesMap file.Id file } s1 idx file
      hinv.len_le hget hrm
  have hmap0 : s1.syncDirFilesMap = mapSet s.syncDirFilesMap file.Id file := hmap
  have hp : p ∈ keys s.syncDirFilesMap := (mapHas_iff _ _).mp hm
  intro kv hkv
  rw [hmap0, mem_mapSet] at hkv
  rcases hkv with rfl | ⟨hkv, _⟩
  · right
    refine ⟨hfile, ?_⟩
    simp only [keys, List.mem_map] at hp
    obtain ⟨kw, hkw, hkp⟩ := hp
    have hkwid : kw.2.Id = p := by rw [hinv.key_id kw hkw, hkp]
    rcases hreach kw hkw with hroot | ⟨hin, hr⟩
    · apply Reach.direct file ps
      show file.Parents = rootDir.Id :: ps
      rw [hpar, ← hkwid, hroot]
    · apply Reach.step file kw.2 ps _ hin hr
      show file.Parents = kw.2.Id :: ps
      rw [hpar, hkwid]
  · exact hreach kv hkv

theorem reachInv_discard (rootDir : File) (files : List File) (s s1 : FilterState) (idx : Nat)
    (file : File) (hP : Inv rootDir files s ∧ ReachInv rootDir files s)
    (hget : s.arr[idx]? = some file) (hid : file.Id = rootDir.Id)
    (hrm : removeAt s idx = some s1) : Inv rootDir files s1 ∧ ReachInv rootDir files s1 := by
  obtain ⟨hinv, hreach⟩ := hP
  refine ⟨inv_discard rootDir files s s1 idx file hinv hget hid hrm, ?_⟩
  obtain ⟨_, _, _, _, _, _, _, hmap0⟩ := removeAt_split s s1 idx file hinv.len_le hget hrm
  intro kv hkv
  rw [hmap0] at hkv
  exact hreach kv hkv

/-- The state in which `filterSyncDirFiles` leaves its loops when it returns, and the state
before its last pass. -/
theorem filterSyncDirFiles_done_reach (rootDir : File) (files inS notInS : List File)
    (h : filterSyncDirFiles rootDir files = .done (inS, notInS)) :
    ∃ s, Inv rootDir files s ∧ ReachInv rootDir files s ∧
      inS = mapValues s.syncDirFilesMap ∧ notInS = s.filesToProcess ∧
      ∃ s0, Inv rootDir files s0 ∧ pass rootDir s0 = some (false, s) := by
  unfold filterSyncDirFiles filterSyncDirFilesFuel at h
  cases hp : passes rootDir (files.length + 1) (initState rootDir files) with
  | panic => simp [hp] at h
  | outOfFuel => simp [hp] at h
  | done s =>
    simp only [hp] at h
    have h1 : (mapValues s.syncDirFilesMap, s.filesToProcess) = (inS, notInS) := by
      injection h
    have h2 : mapValues s.syncDirFilesMap = inS := congrArg Prod.fst h1
    have h3 : s.filesToProcess = notInS := congrArg Prod.snd h1
    obtain ⟨⟨hinv, hreach⟩, s0, ⟨hinv0, _⟩, hlast⟩ := passes_induct rootDir
      (fun s => Inv rootDir files s ∧ ReachInv rootDir files s)
      (fun s b s1 hs hpass =>
        rangeLoop_preserves rootDir (fun s => Inv rootDir files s ∧ ReachInv rootDir files s)
          (reachInv_insert rootDir files) (reachInv_discard rootDir files) s.len 0 s (b, s1)
          hs hpass)
      _ _ s ⟨inv_init rootDir files, reachInv_init rootDir files⟩ hp
    exact ⟨s, hinv, hreach, h2.symm, h3.symm, s0, hinv0, hlast⟩

/-- C15: whenever `filterSyncDirFiles` returns, every file of `inSubtree` is the root or is
a file of the listing whose first parent is the identifier of a file of `inSubtree`, and it
has a chain of first-parent links through files of the listing to the identifier of the
root. -/
theorem filterSyncDirFiles_closed (rootDir : File) (files inS notInS : List File)
    (h : filterSyncDirFiles rootDir files = .done (inS, notInS)) :
    ∀ f ∈ inS, f = rootDir ∨
      (f ∈ files ∧ (∃ p ps, f.Parents = p :: ps ∧ p ∈ ids inS) ∧ Reach rootDir.Id files f) := by
  obtain ⟨s, hinv, hreach, rfl, rfl, _⟩ := filterSyncDirFiles_done_reach rootDir files inS notInS h
  intro f hf
  simp only [mapValues, List.mem_map] at hf
  obtain ⟨kv, hkv, rfl⟩ := hf
  rcases hreach kv hkv with hroot | ⟨hin, hr⟩
  · exact Or.inl hroot
  · rcases hinv.closed kv hkv with hroot | ⟨_, p, ps, hpar, hp⟩
    · exact Or.inl hroot
    · right
      refine ⟨hin, ⟨p, ps, hpar, ?_⟩, hr⟩
      rw [ids_mapValues _ hinv.key_id]
      exact hp

/-- Witness of C15 on the listing `[B, X, A]`: `B` is in `inSubtree`, its first parent `A` is
the identifier of a file of `inSubtree`, and the chain is `B`, `A`, root. -/
theorem filterSyncDirFiles_closed_witness :
    filterSyncDirFiles rootR [fileB, fileX, fileA] = .done ([fileB, fileA, rootR], [fileX]) ∧
    (fileB = rootR ∨
      (fileB ∈ [fileB, fileX, fileA] ∧
        (∃ p ps, fileB.Parents = p :: ps ∧ p ∈ ids [fileB, fileA, rootR]) ∧
        Reach rootR.Id [fileB, fileX, fileA] fileB)) :=
  ⟨by decide,
   filterSyncDirFiles_closed rootR [fileB, fileX, fileA] [fileB, fileA, rootR] [fileX]
     (by decide) fileB (by decide)⟩

/-! ## The exact partition of a listing without an entry of the root -/

theorem eq_of_id_eq (files : List File) (hnd : (ids files).Nodup) (f g : File)
    (hf : f ∈ files) (hg : g ∈ files) (h : f.Id = g.Id) : f = g :=
  List.inj_on_of_nodup_map hnd hf hg h

theorem Reach.congr (rootId : String) (files files2 : List File)
    (hmem : ∀ g, g ∈ files → g ∈ files2) (f : File) (h : Reach rootId files f) :
    Reach rootId files2 f := by
  induction h with
  | direct f ps hpar => exact Reach.direct f ps hpar
  | step f g ps hpar hg _ ih => exact Reach.step f g ps hpar (hmem g hg) ih

/-- A pass that does not set the flag on a working list without an entry of the root changes
nothing, and no file of the working list has its first parent in the map. -/
theorem rangeLoop_stuck (rootDir : File) (files : List File)
    (hid : ∀ f ∈ files, f.Id ≠ rootDir.Id) :
    ∀ (k idx : Nat) (s s1 : FilterState), Inv rootDir files s → k + idx = s.len →
      rangeLoop rootDir k idx s = some (false, s1) →
      s1 = s ∧ ∀ f ∈ s.filesToProcess.drop idx, ∀ p ps, f.Parents = p :: ps →
        mapHas s.syncDirFilesMap p = false := by
  intro k
  induction k with
  | zero =>
    intro idx s s1 hinv hk h
    simp only [rangeLoop] at h
    have h1 : s = s1 := by
      injection h with h
      injection h
    subst h1
    refine ⟨rfl, ?_⟩
    have hlen : s.filesToProcess.length = s.len := by
      have := hinv.len_le
      simp [FilterState.filesToProcess, this]
    have hdrop : s.filesToProcess.drop idx = [] := by
      apply List.drop_of_length_le
      omega
    rw [hdrop]
    intro f hf
    simp at hf
  | succ k ih =>
    intro idx s s1 hinv hk h
    obtain ⟨file, p, ps, hget, hpar, hcase⟩ := rangeLoop_succ_some rootDir k idx s _ h
    have hlt : idx < s.len := by omega
    have hmem : file ∈ s.filesToProcess := mem_filesToProcess_of_getElem? s idx file hlt hget
    rcases hcase with ⟨_, s2, _, hr⟩ | ⟨_, hroot, _, _, _⟩ | ⟨hm, _, hrec⟩
    · simp at hr
    · exact absurd hroot (hid file (hinv.sub.subset hmem))
    · obtain ⟨h1, h2⟩ := ih (idx + 1) s s1 hinv (by omega) hrec
      refine ⟨h1, ?_⟩
      have hlen : s.filesToProcess.length = s.len := by
        have := hinv.len_le
        simp [FilterState.filesToProcess, this]
      have hlt2 : idx < s.filesToProcess.length := by omega
      have hwget : s.filesToProcess[idx] = file := by
        have h3 := getElem?_filesToProcess s idx hlt
        rw [hget, List.getElem?_eq_getElem hlt2] at h3
        exact Option.some.inj h3
      rw [List.drop_eq_getElem_cons hlt2, hwget]
      intro f hf q qs hq
      rcases List.mem_cons.mp hf with rfl | hf
      · rw [hpar] at hq
        have hpq : p = q := by
          injection hq
        rw [← hpq]
        exact hm
      · exact h2 f hf q qs hq

/-- The partition `filterSyncDirFiles` returns on a listing in which files with the same
identifier are the same file, every file has a parent and no file has the identifier of the
root. -/
theorem filterSyncDirFiles_exact (rootDir : File) (files : List File)
    (hinj : ∀ f ∈ files, ∀ g ∈ files, f.Id = g.Id → f = g) (hpar : ∀ f ∈ files, f.Parents ≠ [])
    (hid : ∀ f ∈ files, f.Id ≠ rootDir.Id) :
    ∃ inS notInS, filterSyncDirFiles rootDir files = .done (inS, notInS) ∧
      (∀ f, f ∈ inS ↔ (f = rootDir ∨ (f ∈ files ∧ Reach rootDir.Id files f))) ∧
      (∀ f, f ∈ notInS ↔ (f ∈ files ∧ ¬ Reach rootDir.Id files f)) := by
  obtain ⟨sd, hsd⟩ := passes_done rootDir files hpar hid (files.length + 1)
    (initState rootDir files) (inv_init rootDir files) (Nat.lt_succ_self _)
  have hdone : filterSyncDirFiles rootDir files
      = .done (mapValues sd.syncDirFilesMap, sd.filesToProcess) := by
    unfold filterSyncDirFiles filterSyncDirFilesFuel
    rw [hsd]
  refine ⟨_, _, hdone, ?_⟩
  obtain ⟨s, hinv, hreach, hin, hnot, s0, hinv0, hlast⟩ :=
    filterSyncDirFiles_done_reach rootDir files _ _ hdone
  rw [hin, hnot]
  obtain ⟨hs0, hstuck0⟩ := rangeLoop_stuck rootDir files hid s0.len 0 s0 s hinv0 rfl hlast
  subst hs0
  have hstuck : ∀ f ∈ s.filesToProcess, ∀ p ps, f.Parents = p :: ps →
      mapHas s.syncDirFilesMap p = false := by
    simpa using hstuck0
  -- a file of the listing whose identifier is a key of the map is a value of the map
  have hval : ∀ f ∈ files, f.Id ∈ keys s.syncDirFilesMap → (f.Id, f) ∈ s.syncDirFilesMap := by
    intro f hf hk
    simp only [keys, List.mem_map] at hk
    obtain ⟨kv, hkv, hkf⟩ := hk
    have hkid : kv.2.Id = f.Id := by rw [hinv.key_id kv hkv, hkf]
    rcases hinv.closed kv hkv with hroot | ⟨hin, _⟩
    · rw [hroot] at hkid
      exact absurd hkid.symm (hid f hf)
    · have hfeq : kv.2 = f := hinj kv.2 hin f hf hkid
      have hkveq : kv = (f.Id, f) := Prod.ext hkf hfeq
      rw [← hkveq]
      exact hkv
  -- a file of the listing whose identifier is in the working list is in the working list
  have hwork : ∀ f ∈ files, f.Id ∈ ids s.filesToProcess → f ∈ s.filesToProcess := by
    intro f hf hw
    simp only [ids, List.mem_map] at hw
    obtain ⟨g, hg, hgf⟩ := hw
    have hfeq : g = f := hinj g (hinv.sub.subset hg) f hf hgf
    rw [← hfeq]
    exact hg
  -- a file with a chain to the root has its identifier in the map
  have hcomplete : ∀ f, Reach rootDir.Id files f → f ∈ files →
      f.Id ∈ keys s.syncDirFilesMap := by
    intro f hr
    induction hr with
    | direct f ps hp =>
      intro hf
      rcases (hinv.cover f.Id).mpr (Or.inl (List.mem_map_of_mem File.Id hf)) with hk | hw
      · exact hk
      · have hst := hstuck f (hwork f hf hw) rootDir.Id ps hp
        have hroot := (mapHas_iff _ _).mpr hinv.root_key
        rw [hst] at hroot
        exact absurd hroot (by simp)
    | step f g ps hp hg _ ih =>
      intro hf
      rcases (hinv.cover f.Id).mpr (Or.inl (List.mem_map_of_mem File.Id hf)) with hk | hw
      · exact hk
      · have hst := hstuck f (hwork f hf hw) g.Id ps hp
        have hgk := (mapHas_iff _ _).mpr (ih hg)
        rw [hst] at hgk
        exact absurd hgk (by simp)
  constructor
  · intro f
    constructor
    · intro hf
      simp only [mapValues, List.mem_map] at hf
      obtain ⟨kv, hkv, rfl⟩ := hf
      exact hreach kv hkv
    · rintro (rfl | ⟨hf, hr⟩)
      · have hk := hinv.root_key
        simp only [keys, List.mem_map] at hk
        obtain ⟨kv, hkv, hkf⟩ := hk
        have hkid : kv.2.Id = f.Id := by rw [hinv.key_id kv hkv, hkf]
        rcases hinv.closed kv hkv with hroot | ⟨hin, _⟩
        · simp only [mapValues, List.mem_map]
          exact ⟨kv, hkv, hroot⟩
        · exact absurd hkid (hid kv.2 hin)
      · simp only [mapValues, List.mem_map]
        exact ⟨(f.Id, f), hval f hf (hcomplete f hr hf), rfl⟩
  · intro f
    constructor
    · intro hf
      refine ⟨hinv.sub.subset hf, fun hr => ?_⟩
      cases hr with
      | direct _ ps hp =>
        have hst := hstuck f hf rootDir.Id ps hp
        have hroot := (mapHas_iff _ _).mpr hinv.root_key
        rw [hst] at hroot
        exact absurd hroot (by simp)
      | step _ g ps hp hg hrg =>
        have hst := hstuck f hf g.Id ps hp
        have hgk := (mapHas_iff _ _).mpr (hcomplete g hrg hg)
        rw [hst] at hgk
        exact absurd hgk (by simp)
    · rintro ⟨hf, hnr⟩
      rcases (hinv.cover f.Id).mpr (Or.inl (List.mem_map_of_mem File.Id hf)) with hk | hw
      · rcases hreach _ (hval f hf hk) with hroot | ⟨_, hr⟩
        · have : f.Id = rootDir.Id := by
            have h4 : (f.Id, f).2 = rootDir := hroot
            exact congrArg File.Id h4
          exact absurd this (hid f hf)
        · exact absurd hr hnr
      · exact hwork f hf hw

/-- C14: on a listing with pairwise-distinct identifiers in which every file has at least one
parent and no file has the identifier of the root, `filterSyncDirFiles` returns; `inSubtree`
is the root together with the files of the listing that have a chain of first-parent links
through files of the listing to the identifier of the root, `notInSubtree` is the other
files of the listing, and every reordering of the listing gives the same two sets. -/
theorem filterSyncDirFiles_exact_any_order (rootDir : File) (files : List File)
    (hnd : (ids files).Nodup) (hpar : ∀ f ∈ files, f.Parents ≠ [])
    (hid : ∀ f ∈ files, f.Id ≠ rootDir.Id) :
    ∃ inS notInS, filterSyncDirFiles rootDir files = .done (inS, notInS) ∧
      (∀ f, f ∈ inS ↔ (f = rootDir ∨ (f ∈ files ∧ Reach rootDir.Id files f))) ∧
      (∀ f, f ∈ notInS ↔ (f ∈ files ∧ ¬ Reach rootDir.Id files f)) ∧
      (∀ files2, files.Perm files2 →
        ∃ inS2 notInS2, filterSyncDirFiles rootDir files2 = .done (inS2, notInS2) ∧
          (∀ f, f ∈ inS2 ↔ f ∈ inS) ∧ (∀ f, f ∈ notInS2 ↔ f ∈ notInS)) := by
  obtain ⟨inS, notInS, hdone, hin, hnot⟩ := filterSyncDirFiles_exact rootDir files
    (fun f hf g hg h => eq_of_id_eq files hnd f g hf hg h) hpar hid
  refine ⟨inS, notInS, hdone, hin, hnot, ?_⟩
  intro files2 hperm
  have hmem : ∀ g, g ∈ files ↔ g ∈ files2 := fun g => hperm.mem_iff
  have hnd2 : (ids files2).Nodup := ((hperm.map File.Id).nodup_iff).mp hnd
  have hpar2 : ∀ f ∈ files2, f.Parents ≠ [] := fun f hf => hpar f ((hmem f).mpr hf)
  have hid2 : ∀ f ∈ files2, f.Id ≠ rootDir.Id := fun f hf => hid f ((hmem f).mpr hf)
  obtain ⟨inS2, notInS2, hdone2, hin2, hnot2⟩ :=
    filterSyncDirFiles_exact rootDir files2
      (fun f hf g hg h => eq_of_id_eq files2 hnd2 f g hf hg h) hpar2 hid2
  have hreach : ∀ f, Reach rootDir.Id files f ↔ Reach rootDir.Id files2 f := fun f =>
    ⟨Reach.congr rootDir.Id files files2 (fun g => (hmem g).mp) f,
     Reach.congr rootDir.Id files2 files (fun g => (hmem g).mpr) f⟩
  refine ⟨inS2, notInS2, hdone2, ?_, ?_⟩
  · intro f
    rw [hin2 f, hin f, hmem f, hreach f]
  · intro f
    rw [hnot2 f, hnot f, hmem f, hreach f]

/-- Witness of C14 on the listing `[B, X, A]` and its reordering `[A, B, X]`. -/
theorem filterSyncDirFiles_exact_any_order_witness :
    filterSyncDirFiles rootR [fileB, fileX, fileA] = .done ([fileB, fileA, rootR], [fileX]) ∧
    filterSyncDirFiles rootR [fileA, fileB, fileX] = .done ([fileB, fileA, rootR], [fileX]) ∧
    ∃ inS notInS, filterSyncDirFiles rootR [fileB, fileX, fileA] = .done (inS, notInS) ∧
      (∀ f, f ∈ inS ↔
        (f = rootR ∨ (f ∈ [fileB, fileX, fileA] ∧ Reach rootR.Id [fileB, fileX, fileA] f))) ∧
      (∀ f, f ∈ notInS ↔
        (f ∈ [fileB, fileX, fileA] ∧ ¬ Reach rootR.Id [fileB, fileX, fileA] f)) ∧
      (∀ files2, [fileB, fileX, fileA].Perm files2 →
        ∃ inS2 notInS2, filterSyncDirFiles rootR files2 = .done (inS2, notInS2) ∧
          (∀ f, f ∈ inS2 ↔ f ∈ inS) ∧ (∀ f, f ∈ notInS2 ↔ f ∈ notInS)) :=
  ⟨by decide, by decide,
   filterSyncDirFiles_exact_any_order rootR [fileB, fileX, fileA] (by decide) (by decide)
     (by decide)⟩

/-! ## Two calls on the same slice -/

/-- Counterexample to C12 as stated: on the slice `[A, X]`, with `A` a child of the root, the
first call returns `inSubtree = {A, R}`, `notInSubtree = [X]` and leaves the cells `[X, X]`
in the slice; the second call on the same slice returns `inSubtree = {R}`,
`notInSubtree = [X, X]`, so `A` is in the first `inSubtree` and not in the second.  On
`[R, A, B]` with the entry of the root in front the second call returns more than the first. -/
theorem filterSyncDirFiles_twice_same_slice_differs :
    filterSyncDirFilesArray rootR [fileA, fileX] = .done [fileX, fileX] ∧
    filterSyncDirFilesTwice rootR [fileA, fileX]
      = .done (([fileA, rootR], [fileX]), ([rootR], [fileX, fileX])) ∧
    fileA ∈ [fileA, rootR] ∧ fileA ∉ [rootR] ∧
    filterSyncDirFilesTwice rootR [entryR, fileA, fileB]
      = .done (([rootR], [fileA, fileB]), ([fileB, fileA, rootR], [])) := by
  decide

theorem removeAt_arr_mem (s s1 : FilterState) (idx : Nat) (hrm : removeAt s idx = some s1) :
    ∀ f ∈ s1.arr, f ∈ s.arr := by
  unfold removeAt at hrm
  split at hrm
  · injection hrm with hrm
    subst hrm
    intro f hf
    have hf2 : f ∈ s.arr.take idx ++ (s.arr.take s.len).drop (idx + 1) ++ s.arr.drop (s.len - 1) :=
      hf
    rcases List.mem_append.mp hf2 with hf3 | hf3
    · rcases List.mem_append.mp hf3 with hf4 | hf4
      · exact List.mem_of_mem_take hf4
      · exact List.mem_of_mem_take (List.mem_of_mem_drop hf4)
    · exact List.mem_of_mem_drop hf3
  · exact absurd hrm (by simp)

/-- The removal of the last entry of the working list leaves every cell as it was. -/
theorem removeAt_last_cells (s s1 : FilterState) (idx : Nat) (hlen : s.len ≤ s.arr.length)
    (hlast : idx + 1 = s.len) (hrm : removeAt s idx = some s1) : s1.arr = s.arr := by
  unfold removeAt at hrm
  split at hrm
  · injection hrm with hrm
    subst hrm
    show s.arr.take idx ++ (s.arr.take s.len).drop (idx + 1) ++ s.arr.drop (s.len - 1) = s.arr
    have h1 : (s.arr.take s.len).drop (idx + 1) = [] := by
      apply List.drop_of_length_le
      rw [List.length_take]
      omega
    have h2 : s.len - 1 = idx := by omega
    rw [h1, List.append_nil, h2, List.take_append_drop]
  · exact absurd hrm (by simp)

/-- The cells of the slice hold files of the listing, before and after every removal. -/
theorem rangeLoop_cells (rootDir : File) (files : List File) :
    ∀ (k idx : Nat) (s : FilterState) (r : Bool × FilterState), (∀ f ∈ s.arr, f ∈ files) →
      rangeLoop rootDir k idx s = some r → ∀ f ∈ r.2.arr, f ∈ files :=
  rangeLoop_preserves rootDir (fun s => ∀ f ∈ s.arr, f ∈ files)
    (fun s s1 idx file _ _ hP _ _ _ hrm f hf =>
      hP f (removeAt_arr_mem
        { s with syncDirFilesMap := mapSet s.syncDirFilesMap file.Id file } s1 idx hrm f hf))
    (fun s s1 idx _ hP _ _ hrm f hf => hP f (removeAt_arr_mem s s1 idx hrm f hf))

/-- C12, as it holds of the code: when `filterSyncDirFiles` returns, the slice it was given
keeps its length, has `notInSubtree` in its first cells and files of the listing in all its
cells, and a second call with the same root on the same slice is a call on these cells.  The
second call returns the same `inSubtree` and the same `notInSubtree` when the first call left
the cells as they were, as it does when it removed nothing.  On a listing with pairwise-distinct identifiers in which every file
has a parent and no file has the identifier of the root, the second call returns, and its two
results have the same files as those of the first call exactly when every file of the listing
is still in a cell of the slice after the first call. -/
theorem filterSyncDirFiles_twice (rootDir : File) (files inS notInS : List File)
    (h : filterSyncDirFiles rootDir files = .done (inS, notInS)) :
    ∃ arr, filterSyncDirFilesArray rootDir files = .done arr ∧
      arr.length = files.length ∧ arr.take notInS.length = notInS ∧ (∀ f ∈ arr, f ∈ files) ∧
      (∀ r2, filterSyncDirFiles rootDir arr = .done r2 →
        filterSyncDirFilesTwice rootDir files = .done ((inS, notInS), r2)) ∧
      (arr = files →
        filterSyncDirFilesTwice rootDir files = .done ((inS, notInS), (inS, notInS))) ∧
      (notInS.length = files.length → arr = files) ∧
      ((ids files).Nodup → (∀ f ∈ files, f.Parents ≠ []) → (∀ f ∈ files, f.Id ≠ rootDir.Id) →
        ∃ inS2 notInS2,
          filterSyncDirFilesTwice rootDir files = .done ((inS, notInS), (inS2, notInS2)) ∧
          (((∀ f, f ∈ inS2 ↔ f ∈ inS) ∧ (∀ f, f ∈ notInS2 ↔ f ∈ notInS)) ↔
            ∀ f ∈ files, f ∈ arr)) := by
  have h0 := h
  unfold filterSyncDirFiles filterSyncDirFilesFuel at h
  cases hp : passes rootDir (files.length + 1) (initState rootDir files) with
  | panic => simp [hp] at h
  | outOfFuel => simp [hp] at h
  | done s =>
    simp only [hp] at h
    have h1 : (mapValues s.syncDirFilesMap, s.filesToProcess) = (inS, notInS) := by
      injection h
    have h3 : s.filesToProcess = notInS := congrArg Prod.snd h1
    obtain ⟨⟨hinv, hlen, hcells⟩, _⟩ := passes_induct rootDir
      (fun s => Inv rootDir files s ∧ s.arr.length = files.length ∧ ∀ f ∈ s.arr, f ∈ files)
      (fun s b s1 hs hpass =>
        ⟨rangeLoop_inv rootDir files s.len 0 s (b, s1) hs.1 hpass,
         ((rangeLoop_sublist rootDir s.len 0 s (b, s1) hs.1.len_le hpass).2.2.2).trans hs.2.1,
         rangeLoop_cells rootDir files s.len 0 s (b, s1) hs.2.2 hpass⟩)
      _ _ s ⟨inv_init rootDir files, rfl, fun f hf => hf⟩ hp
    have harr : filterSyncDirFilesArray rootDir files = .done s.arr := by
      unfold filterSyncDirFilesArray
      rw [hp]
    have hwl : s.filesToProcess.length = s.len := by
      have := hinv.len_le
      simp [FilterState.filesToProcess, this]
    have htwice : ∀ r2, filterSyncDirFiles rootDir s.arr = .done r2 →
        filterSyncDirFilesTwice rootDir files = .done ((inS, notInS), r2) := by
      intro r2 hr2
      unfold filterSyncDirFilesTwice
      rw [h0, harr]
      simp only [hr2]
    refine ⟨s.arr, harr, hlen, ?_, hcells, htwice, ?_, ?_, ?_⟩
    · rw [← h3, hwl]
      rfl
    · intro harrf
      apply htwice
      rw [harrf]
      exact h0
    · intro hfull
      rw [← h3, hwl] at hfull
      have hw : s.filesToProcess = s.arr := by
        show s.arr.take s.len = s.arr
        apply List.take_of_length_le
        omega
      have hweq : s.filesToProcess = files := hinv.sub.eq_of_length (by rw [hwl, hfull])
      rw [← hw, hweq]
    · intro hnd hpar hid
      have hinj : ∀ f ∈ files, ∀ g ∈ files, f.Id = g.Id → f = g :=
        fun f hf g hg hfg => eq_of_id_eq files hnd f g hf hg hfg
      obtain ⟨inS1, notInS1, hdone1, hin1, hnot1⟩ :=
        filterSyncDirFiles_exact rootDir files hinj hpar hid
      rw [h0] at hdone1
      have hpair : (inS, notInS) = (inS1, notInS1) := by
        injection hdone1
      have hi : inS = inS1 := congrArg Prod.fst hpair
      have hn : notInS = notInS1 := congrArg Prod.snd hpair
      rw [← hi] at hin1
      rw [← hn] at hnot1
      obtain ⟨inS2, notInS2, hdone2, hin2, hnot2⟩ :=
        filterSyncDirFiles_exact rootDir s.arr
          (fun f hf g hg hfg => hinj f (hcells f hf) g (hcells g hg) hfg)
          (fun f hf => hpar f (hcells f hf)) (fun f hf => hid f (hcells f hf))
      refine ⟨inS2, notInS2, htwice _ hdone2, ?_⟩
      constructor
      · rintro ⟨hsi, hsn⟩ f hf
        by_cases hr : Reach rootDir.Id files f
        · have hf1 : f ∈ inS := (hin1 f).mpr (Or.inr ⟨hf, hr⟩)
          rcases (hin2 f).mp ((hsi f).mpr hf1) with hroot | ⟨hfa, _⟩
          · exact absurd (congrArg File.Id hroot) (hid f hf)
          · exact hfa
        · have hf1 : f ∈ notInS := (hnot1 f).mpr ⟨hf, hr⟩
          exact ((hnot2 f).mp ((hsn f).mpr hf1)).1
      · intro hall
        have hmem : ∀ g, g ∈ s.arr ↔ g ∈ files := fun g => ⟨hcells g, hall g⟩
        have hreach : ∀ f, Reach rootDir.Id s.arr f ↔ Reach rootDir.Id files f := fun f =>
          ⟨Reach.congr rootDir.Id s.arr files (fun g => (hmem g).mp) f,
           Reach.congr rootDir.Id files s.arr (fun g => (hmem g).mpr) f⟩
        constructor
        · intro f
          rw [hin2 f, hin1 f, hmem f, hreach f]
        · intro f
          rw [hnot2 f, hnot1 f, hmem f, hreach f]

/-- Witness of C12 as amended: on the slice `[B, A]`, with `A` a child of the root and `B` a
child of `A`, both files are removed, each as the last entry of the working list, the cells
stay as they were, and the second call returns what the first returned; so it does on
`[X, A]`, on `[A]` and on `[X, P, Q]`, from which nothing is removed. -/
theorem filterSyncDirFiles_twice_witness :
    filterSyncDirFilesArray rootR [fileB, fileA] = .done [fileB, fileA] ∧
    filterSyncDirFilesTwice rootR [fileB, fileA]
      = .done (([fileB, fileA, rootR], []), ([fileB, fileA, rootR], [])) ∧
    filterSyncDirFilesTwice rootR [fileX, fileA]
      = .done (([fileA, rootR], [fileX]), ([fileA, rootR], [fileX])) ∧
    filterSyncDirFilesTwice rootR [fileA] = .done (([fileA, rootR], []), ([fileA, rootR], [])) ∧
    filterSyncDirFilesTwice rootR [fileX, fileP, fileQ]
      = .done (([rootR], [fileX, fileP, fileQ]), ([rootR], [fileX, fileP, fileQ])) ∧
    ∃ arr, filterSyncDirFilesArray rootR [fileB, fileA] = .done arr ∧
      arr.length = [fileB, fileA].length ∧
      arr.take ([] : List File).length = [] ∧ (∀ f ∈ arr, f ∈ [fileB, fileA]) ∧
      (∀ r2, filterSyncDirFiles rootR arr = .done r2 →
        filterSyncDirFilesTwice rootR [fileB, fileA]
          = .done (([fileB, fileA, rootR], []), r2)) ∧
      (arr = [fileB, fileA] →
        filterSyncDirFilesTwice rootR [fileB, fileA]
          = .done (([fileB, fileA, rootR], []), ([fileB, fileA, rootR], []))) ∧
      (([] : List File).length = [fileB, fileA].length → arr = [fileB, fileA]) ∧
      ((ids [fileB, fileA]).Nodup → (∀ f ∈ [fileB, fileA], f.Parents ≠ []) →
        (∀ f ∈ [fileB, fileA], f.Id ≠ rootR.Id) →
        ∃ inS2 notInS2,
          filterSyncDirFilesTwice rootR [fileB, fileA]
            = .done (([fileB, fileA, rootR], []), (inS2, notInS2)) ∧
          (((∀ f, f ∈ inS2 ↔ f ∈ [fileB, fileA, rootR]) ∧
              (∀ f, f ∈ notInS2 ↔ f ∈ ([] : List File))) ↔
            ∀ f ∈ [fileB, fileA], f ∈ arr)) :=
  ⟨by decide, by decide, by decide, by decide, by decide,
   filterSyncDirFiles_twice rootR [fileB, fileA] [fileB, fileA, rootR] [] (by decide)⟩

/-! ## The calls of a run and their answers -/

theorem replay_append {σ : Type} (svc : Service σ) :
    ∀ (l1 l2 : List Call) (st : σ),
      replay svc st (l1 ++ l2) = replay svc st l1 ++ replay svc (replayState svc st l1) l2 := by
  intro l1
  induction l1 with
  | nil =>
    intro l2 st
    rfl
  | cons c cs ih =>
    intro l2 st
    show (svc.answer st c).1 :: replay svc (svc.answer st c).2 (cs ++ l2) = _
    rw [ih]
    rfl

theorem replayState_append {σ : Type} (svc : Service σ) :
    ∀ (l1 l2 : List Call) (st : σ),
      replayState svc st (l1 ++ l2) = replayState svc (replayState svc st l1) l2 := by
  intro l1
  induction l1 with
  | nil =>
    intro l2 st
    rfl
  | cons c cs ih =>
    intro l2 st
    show replayState svc (svc.answer st c).2 (cs ++ l2) = _
    rw [ih]
    rfl

theorem replay_length {σ : Type} (svc : Service σ) :
    ∀ (l : List Call) (st : σ), (replay svc st l).length = l.length := by
  intro l
  induction l with
  | nil =>
    intro st
    rfl
  | cons c cs ih =>
    intro st
    simp only [replay, List.length_cons, ih]

theorem traceShape_nil {σ : Type} (svc : Service σ) (st : σ) : TraceShape svc st [] false :=
  Or.inl ⟨rfl, rfl⟩

/-- A call that succeeds in front of a part of a run. -/
theorem traceShape_cons_ok {σ : Type} (svc : Service σ) (st : σ) (c : Call) (cs : List Call)
    (err : Bool) (hc : (svc.answer st c).1 = false)
    (h : TraceShape svc (svc.answer st c).2 cs err) : TraceShape svc st (c :: cs) err := by
  rcases h with ⟨he, hr⟩ | ⟨he, n, hn, hr⟩
  · left
    refine ⟨he, ?_⟩
    simp only [replay, hc, hr, List.length_cons, List.replicate_succ]
  · right
    refine ⟨he, n + 1, by simp [hn], ?_⟩
    simp only [replay, hc, hr, List.replicate_succ, List.cons_append]

/-- A call that fails and ends a part of a run. -/
theorem traceShape_single_failed {σ : Type} (svc : Service σ) (st : σ) (c : Call)
    (hc : (svc.answer st c).1 = true) : TraceShape svc st [c] true := by
  right
  refine ⟨rfl, 0, rfl, ?_⟩
  simp [replay, hc]

theorem traceShape_append {σ : Type} (svc : Service σ) (st : σ) (l1 l2 : List Call)
    (err : Bool) (h1 : TraceShape svc st l1 false)
    (h2 : TraceShape svc (replayState svc st l1) l2 err) : TraceShape svc st (l1 ++ l2) err := by
  rcases h1 with ⟨_, hr1⟩ | ⟨he, _⟩
  · rcases h2 with ⟨he, hr2⟩ | ⟨he, n, hn, hr2⟩
    · left
      refine ⟨he, ?_⟩
      rw [replay_append, hr1, hr2, List.length_append, List.replicate_add]
    · right
      refine ⟨he, l1.length + n, by rw [List.length_append, hn]; omega, ?_⟩
      rw [replay_append, hr1, hr2, List.replicate_add, List.append_assoc]
  · exact absurd he (by simp)

theorem updateSyncDirFiles_trace {σ : Type} (svc : Service σ) (args : FixSyncHierarchyArgs)
    (rootDir : File) :
    ∀ (files : List File) (st : σ),
      replayState svc st (updateSyncDirFiles svc args rootDir files st).calls
        = (updateSyncDirFiles svc args rootDir files st).state ∧
      (∀ c ∈ (updateSyncDirFiles svc args rootDir files st).calls, c.isUpdate = true) ∧
      TraceShape svc st (updateSyncDirFiles svc args rootDir files st).calls
        (updateSyncDirFiles svc args rootDir files st).err.isSome := by
  intro files
  induction files with
  | nil =>
    intro st
    simp only [updateSyncDirFiles, replayState, List.not_mem_nil, false_implies, implies_true,
      Option.isSome_none, true_and]
    exact traceShape_nil svc st
  | cons file rest ih =>
    intro st
    unfold updateSyncDirFiles
    by_cases hc : syncRootIdOf file = rootDir.Id ∨ file.Id = rootDir.Id
    · simp only [hc, if_true]
      exact ih st
    · simp only [hc, if_false]
      by_cases hdry : args.DryRun = true
      · simp only [hdry, if_true]
        exact ih st
      · simp only [hdry, Bool.false_eq_true, if_false]
        cases hu : svc.filesUpdate st file.Id [("syncRootId", args.RootId)] with
        | mk res st1 =>
          have hans : svc.answer st (Call.update file.Id [("syncRootId", args.RootId)])
              = (failed res, st1) := by
            simp only [Service.answer, hu]
          cases res with
          | error e =>
            simp only [replayState, hans, List.mem_singleton, forall_eq, Call.isUpdate,
              Option.isSome_some, true_and]
            exact traceShape_single_failed svc st _ (by rw [hans]; rfl)
          | ok g =>
            obtain ⟨h1, h2, h3⟩ := ih st1
            simp only [replayState, hans, h1, List.mem_cons, forall_eq_or_imp, Call.isUpdate,
              true_and]
            refine ⟨h2, ?_⟩
            apply traceShape_cons_ok svc st _ _ _ (by rw [hans]; rfl)
            rw [hans]
            exact h3

theorem clearNonSyncDirFiles_trace {σ : Type} (svc : Service σ) (args : FixSyncHierarchyArgs) :
    ∀ (files : List File) (st : σ),
      replayState svc st (clearNonSyncDirFiles svc args files st).calls
        = (clearNonSyncDirFiles svc args files st).state ∧
      (∀ c ∈ (clearNonSyncDirFiles svc args files st).calls, c.isUpdate = true) ∧
      TraceShape svc st (clearNonSyncDirFiles svc args files st).calls
        (clearNonSyncDirFiles svc args files st).err.isSome := by
  intro files
  induction files with
  | nil =>
    intro st
    simp only [clearNonSyncDirFiles, replayState, List.not_mem_nil, false_implies, implies_true,
      Option.isSome_none, true_and]
    exact traceShape_nil svc st
  | cons file rest ih =>
    intro st
    unfold clearNonSyncDirFiles
    by_cases hc : mapGet? file.AppProperties "syncRootId" = some ""
    · simp only [hc, if_true]
      exact ih st
    · simp only [hc, if_false]
      by_cases hdry : args.DryRun = true
      · simp only [hdry, if_true]
        exact ih st
      · simp only [hdry, Bool.false_eq_true, if_false]
        cases hu : svc.filesUpdate st file.Id [("syncRootId", "")] with
        | mk res st1 =>
          have hans : svc.answer st (Call.update file.Id [("syncRootId", "")])
              = (failed res, st1) := by
            simp only [Service.answer, hu]
          cases res with
          | error e =>
            simp only [replayState, hans, List.mem_singleton, forall_eq, Call.isUpdate,
              Option.isSome_some, true_and]
            exact traceShape_single_failed svc st _ (by rw [hans]; rfl)
          | ok g =>
            obtain ⟨h1, h2, h3⟩ := ih st1
            simp only [replayState, hans, h1, List.mem_cons, forall_eq_or_imp, Call.isUpdate,
              true_and]
            refine ⟨h2, ?_⟩
            apply traceShape_cons_ok svc st _ _ _ (by rw [hans]; rfl)
            rw [hans]
            exact h3

theorem findSyncRoot_ok_get {σ : Type} (svc : Service σ) (st st1 : σ) (rootId : String)
    (f : File) (h : findSyncRoot svc st rootId = (.ok f, st1)) :
    svc.filesGet st rootId = (.ok f, st1) := by
  unfold findSyncRoot at h
  cases hget : svc.filesGet st rootId with
  | mk res st2 =>
    rw [hget] at h
    cases res with
    | error e => simp at h
    | ok g =>
      simp only [] at h
      split at h
      · simp at h
      · split at h
        · simp only [Prod.mk.injEq, Except.ok.injEq] at h
          rw [h.1, h.2]
        · simp at h

theorem getElem?_replicate_false_ne (n i : Nat) :
    (List.replicate n false)[i]? ≠ some true := by
  rw [List.getElem?_replicate]
  split <;> simp

theorem getElem?_replicate_false_append (n i : Nat)
    (h : (List.replicate n false ++ [true])[i]? = some true) : i = n := by
  by_cases hlt : i < n
  · rw [List.getElem?_append_left (by simpa using hlt)] at h
    exact absurd h (getElem?_replicate_false_ne n i)
  · by_contra hne
    have hgt : n + 1 ≤ i := by omega
    have hnone : (List.replicate n false ++ [true])[i]? = none := by
      apply List.getElem?_eq_none
      simp
      omega
    rw [hnone] at h
    simp at h

/-- The calls of a run and their answers: either the root is not resolved and the fetch is
the only call, or the calls are the fetch, the listing and then updates only, and either no
call fails and the run does not return an error, or the last call fails, no call before it,
and the run returns an error. -/
theorem FixSyncHierarchy_trace {σ : Type} (svc : Service σ) (args : FixSyncHierarchyArgs)
    (st : σ) :
    ((∃ e, (findSyncRoot svc st args.RootId).1 = .error e) ∧
      (FixSyncHierarchy svc args st).calls = [Call.get args.RootId] ∧
      ∃ e, (FixSyncHierarchy svc args st).result = .done (some e)) ∨
    ((∃ f, (findSyncRoot svc st args.RootId).1 = .ok f) ∧
      ∃ us, (FixSyncHierarchy svc args st).calls = Call.get args.RootId :: Call.listAll :: us ∧
        (∀ c ∈ us, c.isUpdate = true) ∧
        ((replay svc st (FixSyncHierarchy svc args st).calls
              = List.replicate (us.length + 2) false ∧
            ∀ e, (FixSyncHierarchy svc args st).result ≠ .done (some e)) ∨
         (us = [] ∧ replay svc st (FixSyncHierarchy svc args st).calls = [false, true] ∧
            ∃ e, (FixSyncHierarchy svc args st).result = .done (some e)) ∨
         (∃ n, us.length = n + 1 ∧
            replay svc st (FixSyncHierarchy svc args st).calls
              = List.replicate (n + 2) false ++ [true] ∧
            ∃ e, (FixSyncHierarchy svc args st).result = .done (some e)))) := by
  cases hroot : findSyncRoot svc st args.RootId with
  | mk res st1 =>
    cases res with
    | error e =>
      left
      simp [FixSyncHierarchy, hroot]
    | ok rootDir =>
      right
      refine ⟨⟨rootDir, rfl⟩, ?_⟩
      have hget := findSyncRoot_ok_get svc st st1 args.RootId rootDir hroot
      cases hlist : svc.listAllFiles st1 with
      | mk res2 st2 =>
        have hrep : ∀ us, replay svc st (Call.get args.RootId :: Call.listAll :: us)
            = false :: failed res2 :: replay svc st2 us := by
          intro us
          simp [replay, Service.answer, hget, hlist, failed]
        cases res2 with
        | error e =>
          refine ⟨[], ?_, by simp, Or.inr (Or.inl ⟨rfl, ?_, ?_⟩)⟩
          · simp [FixSyncHierarchy, hroot, hlist]
          · simp only [FixSyncHierarchy, hroot, hlist, hrep]
            rfl
          · simp [FixSyncHierarchy, hroot, hlist]
        | ok files =>
          have hrep2 : ∀ us, replay svc st (Call.get args.RootId :: Call.listAll :: us)
              = false :: false :: replay svc st2 us := hrep
          cases hfilter : filterSyncDirFiles rootDir files with
          | panic =>
            refine ⟨[], ?_, by simp, Or.inl ⟨?_, ?_⟩⟩
            · simp [FixSyncHierarchy, hroot, hlist, hfilter]
            · simp only [FixSyncHierarchy, hroot, hlist, hfilter, hrep2]
              rfl
            · simp [FixSyncHierarchy, hroot, hlist, hfilter]
          | outOfFuel =>
            refine ⟨[], ?_, by simp, Or.inl ⟨?_, ?_⟩⟩
            · simp [FixSyncHierarchy, hroot, hlist, hfilter]
            · simp only [FixSyncHierarchy, hroot, hlist, hfilter, hrep2]
              rfl
            · simp [FixSyncHierarchy, hroot, hlist, hfilter]
          | done r =>
            obtain ⟨inS, notInS⟩ := r
            obtain ⟨a1, a2, a3⟩ := updateSyncDirFiles_trace svc args rootDir inS st2
            obtain ⟨b1, b2, b3⟩ := clearNonSyncDirFiles_trace svc args notInS
              (updateSyncDirFiles svc args rootDir inS st2).state
            cases herr1 : (updateSyncDirFiles svc args rootDir inS st2).err with
            | some e1 =>
              rw [herr1] at a3
              have hcalls : (FixSyncHierarchy svc args st).calls
                  = Call.get args.RootId :: Call.listAll ::
                      (updateSyncDirFiles svc args rootDir inS st2).calls := by
                simp [FixSyncHierarchy, hroot, hlist, hfilter, herr1]
              have hres : (FixSyncHierarchy svc args st).result = .done (some e1) := by
                simp [FixSyncHierarchy, hroot, hlist, hfilter, herr1]
              refine ⟨_, hcalls, a2, Or.inr (Or.inr ?_)⟩
              rcases a3 with ⟨he, _⟩ | ⟨_, n, hn, hr⟩
              · simp at he
              · refine ⟨n, hn, ?_, e1, hres⟩
                rw [hcalls, hrep2, hr]
                rfl
            | none =>
              rw [herr1] at a3
              have a3q : TraceShape svc st2 (updateSyncDirFiles svc args rootDir inS st2).calls
                  false := a3
              have b3q : TraceShape svc
                  (replayState svc st2 (updateSyncDirFiles svc args rootDir inS st2).calls)
                  (clearNonSyncDirFiles svc args notInS
                    (updateSyncDirFiles svc args rootDir inS st2).state).calls
                  (clearNonSyncDirFiles svc args notInS
                    (updateSyncDirFiles svc args rootDir inS st2).state).err.isSome := by
                rw [a1]
                exact b3
              have hshape := traceShape_append svc st2 _ _ _ a3q b3q
              have hupd : ∀ c ∈ (updateSyncDirFiles svc args rootDir inS st2).calls ++
                  (clearNonSyncDirFiles svc args notInS
                    (updateSyncDirFiles svc args rootDir inS st2).state).calls,
                  c.isUpdate = true := by
                intro c hc
                rcases List.mem_append.mp hc with hc | hc
                · exact a2 c hc
                · exact b2 c hc
              cases herr2 : (clearNonSyncDirFiles svc args notInS
                  (updateSyncDirFiles svc args rootDir inS st2).state).err with
              | some e2 =>
                rw [herr2] at hshape
                have hcalls : (FixSyncHierarchy svc args st).calls
                    = Call.get args.RootId :: Call.listAll ::
                        ((updateSyncDirFiles svc args rootDir inS st2).calls ++
                          (clearNonSyncDirFiles svc args notInS
                            (updateSyncDirFiles svc args rootDir inS st2).state).calls) := by
                  simp [FixSyncHierarchy, hroot, hlist, hfilter, herr1, herr2]
                have hres : (FixSyncHierarchy svc args st).result = .done (some e2) := by
                  simp [FixSyncHierarchy, hroot, hlist, hfilter, herr1, herr2]
                refine ⟨_, hcalls, hupd, Or.inr (Or.inr ?_)⟩
                rcases hshape with ⟨he, _⟩ | ⟨_, n, hn, hr⟩
                · simp at he
                · refine ⟨n, hn, ?_, e2, hres⟩
                  rw [hcalls, hrep2, hr]
                  rfl
              | none =>
                rw [herr2] at hshape
                have hcalls : (FixSyncHierarchy svc args st).calls
                    = Call.get args.RootId :: Call.listAll ::
                        ((updateSyncDirFiles svc args rootDir inS st2).calls ++
                          (clearNonSyncDirFiles svc args notInS
                            (updateSyncDirFiles svc args rootDir inS st2).state).calls) := by
                  simp [FixSyncHierarchy, hroot, hlist, hfilter, herr1, herr2]
                have hres : (FixSyncHierarchy svc args st).result = .done none := by
                  simp [FixSyncHierarchy, hroot, hlist, hfilter, herr1, herr2]
                refine ⟨_, hcalls, hupd, Or.inl ⟨?_, ?_⟩⟩
                · rcases hshape with ⟨_, hr⟩ | ⟨he, _⟩
                  · rw [hcalls, hrep2, hr]
                    rfl
                  · simp at he
                · intro e
                  rw [hres]
                  simp

/-- C11: `FixSyncHierarchy` returns an error exactly when the root is not resolved, the
listing call fails or an update call it issued fails; a call that fails is the last call of
the run; when the root is not resolved the fetch is the only call, and when the listing
fails the fetch and the listing are the only calls. -/
theorem FixSyncHierarchy_errors {σ : Type} (svc : Service σ) (args : FixSyncHierarchyArgs)
    (st : σ) :
    ((∃ e, (FixSyncHierarchy svc args st).result = .done (some e)) ↔
      ((∃ e, (findSyncRoot svc st args.RootId).1 = .error e) ∨
       (∃ i : Nat, (FixSyncHierarchy svc args st).calls[i]? = some Call.listAll ∧
          (replay svc st (FixSyncHierarchy svc args st).calls)[i]? = some true) ∨
       (∃ (i : Nat) (c : Call), (FixSyncHierarchy svc args st).calls[i]? = some c ∧
          c.isUpdate = true ∧
          (replay svc st (FixSyncHierarchy svc args st).calls)[i]? = some true))) ∧
    (∀ i : Nat, (replay svc st (FixSyncHierarchy svc args st).calls)[i]? = some true →
      i + 1 = (FixSyncHierarchy svc args st).calls.length) ∧
    ((∃ e, (findSyncRoot svc st args.RootId).1 = .error e) →
      (FixSyncHierarchy svc args st).calls = [Call.get args.RootId]) ∧
    ((∃ i : Nat, (FixSyncHierarchy svc args st).calls[i]? = some Call.listAll ∧
          (replay svc st (FixSyncHierarchy svc args st).calls)[i]? = some true) →
      (FixSyncHierarchy svc args st).calls = [Call.get args.RootId, Call.listAll]) := by
  have hlen := replay_length svc (FixSyncHierarchy svc args st).calls st
  have hidx : ∀ (i : Nat) (b : Bool), (replay svc st (FixSyncHierarchy svc args st).calls)[i]? = some b →
      i < (FixSyncHierarchy svc args st).calls.length := by
    intro i b h
    rw [← hlen]
    by_contra hc
    rw [List.getElem?_eq_none (by omega)] at h
    simp at h
  rcases FixSyncHierarchy_trace svc args st with ⟨hroot, hcalls, hres⟩ |
    ⟨⟨f, hok⟩, us, hcalls, hupd, hcase⟩
  · refine ⟨⟨fun _ => Or.inl hroot, fun _ => hres⟩, ?_, fun _ => hcalls, ?_⟩
    · intro i h
      have := hidx i true h
      rw [hcalls] at this ⊢
      simp at this ⊢
      omega
    · rintro ⟨i, h1, h2⟩
      have := hidx i true h2
      rw [hcalls] at this h1
      have hi : i = 0 := by simpa using this
      subst hi
      simp at h1
  · have hnoroot : ¬ ∃ e, (findSyncRoot svc st args.RootId).1 = .error e := by
      rintro ⟨e, he⟩
      rw [hok] at he
      simp at he
    rcases hcase with ⟨hflags, hres⟩ | ⟨hus, hflags, hres⟩ | ⟨n, hn, hflags, hres⟩
    · have hnone : ∀ i : Nat,
          (replay svc st (FixSyncHierarchy svc args st).calls)[i]? ≠ some true := by
        intro i
        rw [hflags]
        exact getElem?_replicate_false_ne _ i
      refine ⟨⟨?_, ?_⟩, ?_, fun h => absurd h hnoroot, ?_⟩
      · rintro ⟨e, he⟩
        exact absurd he (hres e)
      · rintro (h | ⟨i, _, h⟩ | ⟨i, c, _, _, h⟩)
        · exact absurd h hnoroot
        · exact absurd h (hnone i)
        · exact absurd h (hnone i)
      · intro i h
        exact absurd h (hnone i)
      · rintro ⟨i, _, h⟩
        exact absurd h (hnone i)
    · subst hus
      refine ⟨⟨fun _ => Or.inr (Or.inl ⟨1, ?_, ?_⟩), fun _ => hres⟩, ?_,
        fun h => absurd h hnoroot, fun _ => hcalls⟩
      · rw [hcalls]
        simp
      · rw [hflags]
        simp
      · intro i h
        rw [hflags] at h
        have hi : i = 1 := getElem?_replicate_false_append 1 i h
        rw [hcalls, hi]
        rfl
    · have hlast : ∀ i : Nat, (replay svc st (FixSyncHierarchy svc args st).calls)[i]? = some true →
          i = n + 2 := by
        intro i h
        rw [hflags] at h
        exact getElem?_replicate_false_append (n + 2) i h
      have hcn : ∃ c, (FixSyncHierarchy svc args st).calls[n + 2]? = some c ∧
          c.isUpdate = true := by
        have hlt : n < us.length := by omega
        refine ⟨us[n], ?_, hupd _ (List.getElem_mem hlt)⟩
        rw [hcalls]
        simp only [List.getElem?_cons_succ]
        exact List.getElem?_eq_getElem hlt
      have hfn : (replay svc st (FixSyncHierarchy svc args st).calls)[n + 2]? = some true := by
        rw [hflags, List.getElem?_append_right (by simp)]
        simp
      obtain ⟨c, hc1, hc2⟩ := hcn
      refine ⟨⟨fun _ => Or.inr (Or.inr ⟨n + 2, c, hc1, hc2, hfn⟩), fun _ => hres⟩, ?_,
        fun h => absurd h hnoroot, ?_⟩
      · intro i h
        rw [hlast i h, hcalls]
        simp only [List.length_cons, hn]
      · rintro ⟨i, h1, h2⟩
        rw [hlast i h2, hc1] at h1
        have hcl : c = Call.listAll := Option.some.inj h1
        rw [hcl] at hc2
        simp [Call.isUpdate] at hc2

/-- Witness of C11: the updates of `X` fail; the run updates `C`, fails on `X`, returns the
error and does not go on to `P`. -/
theorem FixSyncHierarchy_errors_witness :
    (FixSyncHierarchy (exampleStoreFailing [rootY] [fileC, fileX, fileP] "X")
        { RootId := "rootY", DryRun := false } ()).calls
      = [Call.get "rootY", Call.listAll, Call.update "C" [("syncRootId", "rootY")],
         Call.update "X" [("syncRootId", "")]] ∧
    replay (exampleStoreFailing [rootY] [fileC, fileX, fileP] "X") ()
        (FixSyncHierarchy (exampleStoreFailing [rootY] [fileC, fileX, fileP] "X")
          { RootId := "rootY", DryRun := false } ()).calls
      = [false, false, false, true] ∧
    (FixSyncHierarchy (exampleStoreFailing [rootY] [fileC, fileX, fileP] "X")
        { RootId := "rootY", DryRun := false } ()).result
      = .done (some "Failed to update syncRootId of directory: update refused") ∧
    3 + 1 = (FixSyncHierarchy (exampleStoreFailing [rootY] [fileC, fileX, fileP] "X")
        { RootId := "rootY", DryRun := false } ()).calls.length :=
  ⟨by decide, by decide, by decide,
   (FixSyncHierarchy_errors (exampleStoreFailing [rootY] [fileC, fileX, fileP] "X")
      { RootId := "rootY", DryRun := false } ()).2.1 3 (by decide)⟩

/-! ## `filterSyncDirFiles` looks at identifiers and parents only -/

theorem mapHas_map_snd (h : File → File) (m : List (String × File)) (k : String) :
    mapHas (m.map (fun kv => (kv.1, h kv.2))) k = mapHas m k := by
  simp only [mapHas, List.any_map]
  rfl

theorem mapSet_map_snd (h : File → File) (m : List (String × File)) (k : String) (v : File) :
    mapSet (m.map (fun kv => (kv.1, h kv.2))) k (h v)
      = (mapSet m k v).map (fun kv => (kv.1, h kv.2)) := by
  simp only [mapSet, List.filter_map, List.map_cons]
  rfl

theorem removeAt_mapState (h : File → File) (s : FilterState) (idx : Nat) :
    removeAt (mapState h s) idx = (removeAt s idx).map (mapState h) := by
  unfold removeAt
  by_cases hc : idx + 1 ≤ s.len
  · have hc2 : idx + 1 ≤ (mapState h s).len := hc
    simp only [hc, hc2, if_true, Option.map_some']
    simp [mapState, List.map_take, List.map_drop]
  · have hc2 : ¬ idx + 1 ≤ (mapState h s).len := hc
    simp only [hc, hc2, if_false, Option.map_none']

theorem rangeLoop_mapState (h : File → File) (rootDir : File)
    (hId : ∀ f, (h f).Id = f.Id) (hPar : ∀ f, (h f).Parents = f.Parents) :
    ∀ (k idx : Nat) (s : FilterState),
      rangeLoop (h rootDir) k idx (mapState h s)
        = (rangeLoop rootDir k idx s).map (fun r => (r.1, mapState h r.2)) := by
  intro k
  induction k with
  | zero =>
    intro idx s
    simp [rangeLoop]
  | succ k ih =>
    intro idx s
    unfold rangeLoop
    have hget : (mapState h s).arr[idx]? = (s.arr[idx]?).map h := by
      simp [mapState, List.getElem?_map]
    rw [hget]
    cases hfile : s.arr[idx]? with
    | none => simp
    | some file =>
      simp only [Option.map_some', hPar file]
      cases hpar : file.Parents with
      | nil => simp
      | cons p ps =>
        simp only []
        have hm : mapHas (mapState h s).syncDirFilesMap p = mapHas s.syncDirFilesMap p :=
          mapHas_map_snd h s.syncDirFilesMap p
        rw [hm]
        by_cases hc : mapHas s.syncDirFilesMap p = true
        · simp only [hc, if_true]
          have hst : ({ mapState h s with
              syncDirFilesMap := mapSet (mapState h s).syncDirFilesMap (h file).Id (h file) }
                : FilterState)
              = mapState h { s with
                  syncDirFilesMap := mapSet s.syncDirFilesMap file.Id file } := by
            simp only [mapState, hId, mapSet_map_snd]
          rw [hst, removeAt_mapState]
          cases removeAt { s with syncDirFilesMap := mapSet s.syncDirFilesMap file.Id file } idx
            <;> simp
        · simp only [hc, Bool.false_eq_true, if_false, hId]
          by_cases hr : file.Id = rootDir.Id
          · simp only [hr, if_true]
            rw [removeAt_mapState]
            cases hrm : removeAt s idx with
            | none => simp
            | some s1 =>
              simp only [Option.map_some']
              exact ih (idx + 1) s1
          · simp only [hr, if_false]
            exact ih (idx + 1) s

theorem passes_mapState (h : File → File) (rootDir : File)
    (hId : ∀ f, (h f).Id = f.Id) (hPar : ∀ f, (h f).Parents = f.Parents) :
    ∀ (fuel : Nat) (s : FilterState),
      passes (h rootDir) fuel (mapState h s)
        = (match passes rootDir fuel s with
           | .done s1 => .done (mapState h s1)
           | .panic => .panic
           | .outOfFuel => .outOfFuel) := by
  intro fuel
  induction fuel with
  | zero =>
    intro s
    simp [passes]
  | succ fuel ih =>
    intro s
    unfold passes
    have hp : pass (h rootDir) (mapState h s)
        = (pass rootDir s).map (fun r => (r.1, mapState h r.2)) :=
      rangeLoop_mapState h rootDir hId hPar s.len 0 s
    rw [hp]
    cases hpass : pass rootDir s with
    | none => simp
    | some r =>
      obtain ⟨b, s1⟩ := r
      cases b with
      | true =>
        simp only [Option.map_some']
        exact ih s1
      | false => simp

/-- When a function that keeps identifiers and parents is applied to the root and to every
file of the listing, `filterSyncDirFiles` returns the same partition with the function
applied to every file of it. -/
theorem filterSyncDirFiles_map (h : File → File) (rootDir : File) (files : List File)
    (hId : ∀ f, (h f).Id = f.Id) (hPar : ∀ f, (h f).Parents = f.Parents) :
    filterSyncDirFiles (h rootDir) (files.map h)
      = mapResult h (filterSyncDirFiles rootDir files) := by
  unfold filterSyncDirFiles filterSyncDirFilesFuel
  have hinit : initState (h rootDir) (files.map h) = mapState h (initState rootDir files) := by
    simp [initState, mapState, hId]
  rw [hinit, List.length_map, passes_mapState h rootDir hId hPar]
  cases passes rootDir (files.length + 1) (initState rootDir files) with
  | done s =>
    simp [mapResult, mapValues, mapState, FilterState.filesToProcess, List.map_take]
  | panic => rfl
  | outOfFuel => rfl

/-! ## Runs that complete, and runs that find nothing to correct -/

theorem FixSyncHierarchy_ok_inv {σ : Type} (svc : Service σ) (args : FixSyncHierarchyArgs)
    (st : σ) (h : (FixSyncHierarchy svc args st).result = .done none) :
    ∃ rootDir st1 files st2 inS notInS,
      findSyncRoot svc st args.RootId = (.ok rootDir, st1) ∧
      svc.listAllFiles st1 = (.ok files, st2) ∧
      filterSyncDirFiles rootDir files = .done (inS, notInS) ∧
      (updateSyncDirFiles svc args rootDir inS st2).err = none ∧
      (clearNonSyncDirFiles svc args notInS
        (updateSyncDirFiles svc args rootDir inS st2).state).err = none ∧
      (FixSyncHierarchy svc args st).state
        = (clearNonSyncDirFiles svc args notInS
            (updateSyncDirFiles svc args rootDir inS st2).state).state := by
  cases hroot : findSyncRoot svc st args.RootId with
  | mk res st1 =>
    cases res with
    | error e => simp [FixSyncHierarchy, hroot] at h
    | ok rootDir =>
      cases hlist : svc.listAllFiles st1 with
      | mk res2 st2 =>
        cases res2 with
        | error e => simp [FixSyncHierarchy, hroot, hlist] at h
        | ok files =>
          cases hfilter : filterSyncDirFiles rootDir files with
          | panic => simp [FixSyncHierarchy, hroot, hlist, hfilter] at h
          | outOfFuel => simp [FixSyncHierarchy, hroot, hlist, hfilter] at h
          | done r =>
            obtain ⟨inS, notInS⟩ := r
            cases herr1 : (updateSyncDirFiles svc args rootDir inS st2).err with
            | some e1 => simp [FixSyncHierarchy, hroot, hlist, hfilter, herr1] at h
            | none =>
              cases herr2 : (clearNonSyncDirFiles svc args notInS
                  (updateSyncDirFiles svc args rootDir inS st2).state).err with
              | some e2 => simp [FixSyncHierarchy, hroot, hlist, hfilter, herr1, herr2] at h
              | none =>
                refine ⟨rootDir, st1, files, st2, inS, notInS, rfl, hlist, hfilter, herr1, herr2,
                  ?_⟩
                simp [FixSyncHierarchy, hroot, hlist, hfilter, herr1, herr2]

theorem updateSyncDirFiles_noerr {σ : Type} (svc : Service σ) (args : FixSyncHierarchyArgs)
    (rootDir : File) (hdry : args.DryRun = false) :
    ∀ (files : List File) (st : σ), (updateSyncDirFiles svc args rootDir files st).err = none →
      (updateSyncDirFiles svc args rootDir files st).calls
        = (files.filter (selectedForUpdate rootDir)).map (updateCall args.RootId) := by
  intro files
  induction files with
  | nil =>
    intro st _
    simp [updateSyncDirFiles]
  | cons file rest ih =>
    intro st herr
    unfold updateSyncDirFiles at herr ⊢
    by_cases hc : syncRootIdOf file = rootDir.Id ∨ file.Id = rootDir.Id
    · have hsel : selectedForUpdate rootDir file = false := by simp [selectedForUpdate, hc]
      simp only [hc, if_true] at herr
      simp only [hc, if_true, List.filter_cons, hsel, Bool.false_eq_true, if_false]
      exact ih st herr
    · have hsel : selectedForUpdate rootDir file = true := by simp [selectedForUpdate, hc]
      simp only [hc, if_false, hdry, Bool.false_eq_true] at herr
      simp only [hc, if_false, hdry, Bool.false_eq_true, List.filter_cons, hsel, if_true,
        List.map_cons]
      cases hu : svc.filesUpdate st file.Id [("syncRootId", args.RootId)] with
      | mk res st1 =>
        rw [hu] at herr
        cases res with
        | error e => simp at herr
        | ok g =>
          simp only [] at herr
          simp only [ih st1 herr, updateCall]

theorem clearNonSyncDirFiles_noerr {σ : Type} (svc : Service σ) (args : FixSyncHierarchyArgs)
    (hdry : args.DryRun = false) :
    ∀ (files : List File) (st : σ), (clearNonSyncDirFiles svc args files st).err = none →
      (clearNonSyncDirFiles svc args files st).calls
        = (files.filter selectedForClear).map clearCall := by
  intro files
  induction files with
  | nil =>
    intro st _
    simp [clearNonSyncDirFiles]
  | cons file rest ih =>
    intro st herr
    unfold clearNonSyncDirFiles at herr ⊢
    by_cases hc : mapGet? file.AppProperties "syncRootId" = some ""
    · have hsel : selectedForClear file = false := by simp [selectedForClear, hc]
      simp only [hc, if_true] at herr
      simp only [hc, if_true, List.filter_cons, hsel, Bool.false_eq_true, if_false]
      exact ih st herr
    · have hsel : selectedForClear file = true := by simp [selectedForClear, hc]
      simp only [hc, if_false, hdry, Bool.false_eq_true] at herr
      simp only [hc, if_false, hdry, Bool.false_eq_true, List.filter_cons, hsel, if_true,
        List.map_cons]
      cases hu : svc.filesUpdate st file.Id [("syncRootId", "")] with
      | mk res st1 =>
        rw [hu] at herr
        cases res with
        | error e => simp at herr
        | ok g =>
          simp only [] at herr
          simp only [ih st1 herr, clearCall]

theorem updateSyncDirFiles_unselected {σ : Type} (svc : Service σ)
    (args : FixSyncHierarchyArgs) (rootDir : File) :
    ∀ (files : List File) (st : σ), (∀ f ∈ files, selectedForUpdate rootDir f = false) →
      (updateSyncDirFiles svc args rootDir files st).calls = [] ∧
      (updateSyncDirFiles svc args rootDir files st).err = none ∧
      (updateSyncDirFiles svc args rootDir files st).state = st := by
  intro files
  induction files with
  | nil =>
    intro st _
    simp [updateSyncDirFiles]
  | cons file rest ih =>
    intro st hall
    have hsel := hall file (List.mem_cons_self _ _)
    have hc : syncRootIdOf file = rootDir.Id ∨ file.Id = rootDir.Id := by
      by_contra hcon
      simp [selectedForUpdate, hcon] at hsel
    unfold updateSyncDirFiles
    simp only [hc, if_true]
    exact ih st (fun f hf => hall f (List.mem_cons_of_mem _ hf))

theorem clearNonSyncDirFiles_unselected {σ : Type} (svc : Service σ)
    (args : FixSyncHierarchyArgs) :
    ∀ (files : List File) (st : σ), (∀ f ∈ files, selectedForClear f = false) →
      (clearNonSyncDirFiles svc args files st).calls = [] ∧
      (clearNonSyncDirFiles svc args files st).err = none ∧
      (clearNonSyncDirFiles svc args files st).state = st := by
  intro files
  induction files with
  | nil =>
    intro st _
    simp [clearNonSyncDirFiles]
  | cons file rest ih =>
    intro st hall
    have hsel := hall file (List.mem_cons_self _ _)
    have hc : mapGet? file.AppProperties "syncRootId" = some "" := by
      simpa [selectedForClear] using hsel
    unfold clearNonSyncDirFiles
    simp only [hc, if_true]
    exact ih st (fun f hf => hall f (List.mem_cons_of_mem _ hf))

/-! ## The recording store -/

theorem applyUpdate_Id (fileId : String) (props : List (String × String)) (f : File) :
    (applyUpdate fileId props f).Id = f.Id := by
  unfold applyUpdate
  split <;> rfl

theorem applyUpdate_Parents (fileId : String) (props : List (String × String)) (f : File) :
    (applyUpdate fileId props f).Parents = f.Parents := by
  unfold applyUpdate
  split <;> rfl

theorem applyUpdate_of_ne (fileId : String) (props : List (String × String)) (f : File)
    (h : f.Id ≠ fileId) : applyUpdate fileId props f = f := by
  simp [applyUpdate, h]

theorem applyCall_Id (c : Call) (f : File) : (applyCall c f).Id = f.Id := by
  cases c with
  | get _ => rfl
  | listAll => rfl
  | update fileId props => exact applyUpdate_Id fileId props f

theorem applyCall_Parents (c : Call) (f : File) : (applyCall c f).Parents = f.Parents := by
  cases c with
  | get _ => rfl
  | listAll => rfl
  | update fileId props => exact applyUpdate_Parents fileId props f

theorem applyCalls_Id : ∀ (calls : List Call) (f : File), (applyCalls calls f).Id = f.Id := by
  intro calls
  induction calls with
  | nil =>
    intro f
    rfl
  | cons c cs ih =>
    intro f
    show (applyCalls cs (applyCall c f)).Id = f.Id
    rw [ih, applyCall_Id]

theorem applyCalls_Parents :
    ∀ (calls : List Call) (f : File), (applyCalls calls f).Parents = f.Parents := by
  intro calls
  induction calls with
  | nil =>
    intro f
    rfl
  | cons c cs ih =>
    intro f
    show (applyCalls cs (applyCall c f)).Parents = f.Parents
    rw [ih, applyCall_Parents]

/-- Every call leaves the recording store with the call applied to each of its files. -/
theorem recordingStore_answer (isDir : File → Bool) (st : List File) (c : Call) :
    ((recordingStore isDir).answer st c).2 = st.map (applyCall c) := by
  cases c with
  | get fileId =>
    have hid : st.map (applyCall (Call.get fileId)) = st := List.map_id' st
    rw [hid]
    simp only [Service.answer, recordingStore]
    cases st.find? (fun f => f.Id == fileId) <;> rfl
  | listAll =>
    have hid : st.map (applyCall Call.listAll) = st := List.map_id' st
    rw [hid]
    rfl
  | update fileId props =>
    simp only [Service.answer, recordingStore]
    cases hfind : st.find? (fun f => f.Id == fileId) with
    | some f => rfl
    | none =>
      show st = st.map (applyUpdate fileId props)
      have hall : ∀ f ∈ st, applyUpdate fileId props f = f := by
        intro f hf
        apply applyUpdate_of_ne
        have := List.find?_eq_none.mp hfind f hf
        simpa using this
      rw [List.map_congr_left hall, List.map_id']

theorem replayState_recordingStore (isDir : File → Bool) :
    ∀ (calls : List Call) (st : List File),
      replayState (recordingStore isDir) st calls = st.map (applyCalls calls) := by
  intro calls
  induction calls with
  | nil =>
    intro st
    show st = st.map (fun f => f)
    rw [List.map_id']
  | cons c cs ih =>
    intro st
    show replayState (recordingStore isDir) ((recordingStore isDir).answer st c).2 cs = _
    rw [recordingStore_answer, ih, List.map_map]
    rfl

theorem mapGet?_mapSet_self {β : Type} (m : List (String × β)) (k : String) (v : β) :
    mapGet? (mapSet m k v) k = some v := by
  simp [mapGet?, mapSet]

theorem applyUpdate_syncRootId (v : String) (f : File) :
    mapGet? (applyUpdate f.Id [("syncRootId", v)] f).AppProperties "syncRootId" = some v := by
  simp only [applyUpdate, if_true, mergeProps, List.foldl_cons, List.foldl_nil]
  exact mapGet?_mapSet_self _ _ _

/-- After writes of `syncRootId`, a property that every write of `v` to a file establishes
holds of the file when every write to the file is a write of `v` and either the property held
before or there is a write to the file. -/
theorem applyCalls_writes (Q : File → Prop) (v : String)
    (hQ : ∀ f, Q (applyUpdate f.Id [("syncRootId", v)] f)) :
    ∀ (writes : List (String × String)) (f : File),
      (∀ w ∈ writes, w.1 = f.Id → w.2 = v) →
      (Q f ∨ ∃ w ∈ writes, w.1 = f.Id) →
      Q (applyCalls (writes.map (fun w => Call.update w.1 [("syncRootId", w.2)])) f) := by
  intro writes
  induction writes with
  | nil =>
    intro f _ h
    rcases h with h | ⟨w, hw, _⟩
    · exact h
    · simp at hw
  | cons w ws ih =>
    intro f hall h
    show Q (applyCalls (ws.map (fun w => Call.update w.1 [("syncRootId", w.2)]))
      (applyUpdate w.1 [("syncRootId", w.2)] f))
    have hid : (applyUpdate w.1 [("syncRootId", w.2)] f).Id = f.Id := applyUpdate_Id _ _ f
    have hall2 : ∀ w2 ∈ ws, w2.1 = (applyUpdate w.1 [("syncRootId", w.2)] f).Id → w2.2 = v := by
      intro w2 hw2 h2
      rw [hid] at h2
      exact hall w2 (List.mem_cons_of_mem _ hw2) h2
    apply ih _ hall2
    by_cases hw : w.1 = f.Id
    · left
      have hv : w.2 = v := hall w (List.mem_cons_self _ _) hw
      rw [hw, hv]
      exact hQ f
    · rw [applyUpdate_of_ne _ _ _ (fun hc => hw hc.symm)]
      rcases h with h | ⟨w2, hw2, h2⟩
      · exact Or.inl h
      · rcases List.mem_cons.mp hw2 with rfl | hw2
        · exact absurd h2 hw
        · exact Or.inr ⟨w2, hw2, h2⟩

theorem recordingStore_get (isDir : File → Bool) (st st1 : List File) (id : String) (f : File)
    (h : (recordingStore isDir).filesGet st id = (.ok f, st1)) :
    st.find? (fun g => g.Id == id) = some f ∧ st1 = st := by
  simp only [recordingStore] at h
  cases hfind : st.find? (fun g => g.Id == id) with
  | none =>
    rw [hfind] at h
    simp at h
  | some g =>
    rw [hfind] at h
    simp only [Prod.mk.injEq, Except.ok.injEq] at h
    rw [h.1, h.2]
    exact ⟨rfl, rfl⟩

theorem find?_map_id (h : File → File) (hId : ∀ f, (h f).Id = f.Id) (st : List File)
    (id : String) :
    (st.map h).find? (fun g => g.Id == id) = (st.find? (fun g => g.Id == id)).map h := by
  induction st with
  | nil => rfl
  | cons f rest ih =>
    simp only [List.map_cons, List.find?_cons, hId]
    cases f.Id == id with
    | true => rfl
    | false => exact ih

/-! ## A second run on a listing in the same order -/

/-- When the listing comes in the same order in both runs: for the recording store with
pairwise-distinct identifiers, when a run of `FixSyncHierarchy` with `DryRun` off returns
without an error, a second run with `DryRun` off on the same root, against the store as the
first run left it, makes no update call. -/
theorem FixSyncHierarchy_idempotent (isDir : File → Bool) (st : List File) (rootId : String)
    (hnd : (ids st).Nodup)
    (hrun : (FixSyncHierarchy (recordingStore isDir) { RootId := rootId, DryRun := false }
      st).result = .done none) :
    ∀ c ∈ (FixSyncHierarchy (recordingStore isDir) { RootId := rootId, DryRun := false }
        (FixSyncHierarchy (recordingStore isDir) { RootId := rootId, DryRun := false }
          st).state).calls,
      c.isUpdate = false := by
  obtain ⟨rootDir, st1, files, st2, inS, notInS, hroot, hlist, hfilter, herr1, herr2, hstate⟩ :=
    FixSyncHierarchy_ok_inv (recordingStore isDir) { RootId := rootId, DryRun := false } st hrun
  -- the first run: the root, the listing, the partition
  have hget := findSyncRoot_ok_get (recordingStore isDir) st st1 rootId rootDir hroot
  obtain ⟨hfind, hst1⟩ := recordingStore_get isDir st st1 rootId rootDir hget
  have hst1q : st = st1 := hst1.symm
  subst hst1q
  have hl : st = files ∧ st = st2 := by
    have h1 : (recordingStore isDir).listAllFiles st = (.ok st, st) := rfl
    rw [h1] at hlist
    simp only [Prod.mk.injEq, Except.ok.injEq] at hlist
    exact hlist
  obtain ⟨hfiles, hst2⟩ := hl
  subst hfiles
  subst hst2
  have hrootId : rootDir.Id = rootId := by
    have := List.find?_some hfind
    simpa using this
  obtain ⟨s, hinv, hin, hnot, hd⟩ := filterSyncDirFiles_done rootDir st inS notInS hfilter
  obtain ⟨hdisj, hrootw⟩ := hd hnd
  have hsep : ∀ f ∈ inS, ∀ g ∈ notInS, f.Id ≠ g.Id := by
    intro f hf g hg heq
    have hfk : f.Id ∈ keys s.syncDirFilesMap := by
      rw [← ids_mapValues _ hinv.key_id, ← hin]
      exact List.mem_map_of_mem File.Id hf
    have hgw : g.Id ∈ ids s.filesToProcess := by
      rw [← hnot]
      exact List.mem_map_of_mem File.Id hg
    rw [heq] at hfk
    have := hdisj g.Id hgw hfk
    rw [this] at hgw
    exact hrootw hgw
  -- the calls of the first run and the state it leaves
  have hc1 := updateSyncDirFiles_noerr (recordingStore isDir)
    { RootId := rootId, DryRun := false } rootDir rfl inS st herr1
  have hc2 := clearNonSyncDirFiles_noerr (recordingStore isDir)
    { RootId := rootId, DryRun := false } rfl notInS _ herr2
  obtain ⟨a1, _, _⟩ := updateSyncDirFiles_trace (recordingStore isDir)
    { RootId := rootId, DryRun := false } rootDir inS st
  obtain ⟨b1, _, _⟩ := clearNonSyncDirFiles_trace (recordingStore isDir)
    { RootId := rootId, DryRun := false } notInS
    (updateSyncDirFiles (recordingStore isDir) { RootId := rootId, DryRun := false } rootDir inS
      st).state
  have hwrites : ∃ writes : List (String × String),
      writes = (inS.filter (selectedForUpdate rootDir)).map (fun f => (f.Id, rootId)) ++
        (notInS.filter selectedForClear).map (fun f => (f.Id, "")) ∧
      (FixSyncHierarchy (recordingStore isDir) { RootId := rootId, DryRun := false } st).state
        = st.map (applyCalls (writes.map (fun w => Call.update w.1 [("syncRootId", w.2)]))) := by
    refine ⟨_, rfl, ?_⟩
    have hfin : (FixSyncHierarchy (recordingStore isDir) { RootId := rootId, DryRun := false }
          st).state
        = replayState (recordingStore isDir) st
            ((updateSyncDirFiles (recordingStore isDir) { RootId := rootId, DryRun := false }
                rootDir inS st).calls ++
              (clearNonSyncDirFiles (recordingStore isDir) { RootId := rootId, DryRun := false }
                notInS (updateSyncDirFiles (recordingStore isDir)
                  { RootId := rootId, DryRun := false } rootDir inS st).state).calls) := by
      rw [hstate, replayState_append, a1]
      exact b1.symm
    rw [hfin, replayState_recordingStore, hc1, hc2]
    simp only [List.map_append, List.map_map]
    rfl
  obtain ⟨writes, hw, hfinal⟩ := hwrites
  rw [hfinal]
  -- what the first run did to the files of the partition
  have hId := applyCalls_Id (writes.map (fun w => Call.update w.1 [("syncRootId", w.2)]))
  have hPar := applyCalls_Parents (writes.map (fun w => Call.update w.1 [("syncRootId", w.2)]))
  have hinS : ∀ f ∈ inS, selectedForUpdate
      (applyCalls (writes.map (fun w => Call.update w.1 [("syncRootId", w.2)])) rootDir)
      (applyCalls (writes.map (fun w => Call.update w.1 [("syncRootId", w.2)])) f) = false := by
    intro f hf
    by_cases hfr : f.Id = rootDir.Id
    · simp [selectedForUpdate, hId, hfr]
    · have hq := applyCalls_writes (fun x => syncRootIdOf x = rootId) rootId
        (fun x => by
          show syncRootIdOf (applyUpdate x.Id [("syncRootId", rootId)] x) = rootId
          unfold syncRootIdOf
          rw [applyUpdate_syncRootId]
          rfl)
        writes f
        (by
          intro w hwm hwf
          rw [hw] at hwm
          rcases List.mem_append.mp hwm with hwm | hwm
          · obtain ⟨g, _, rfl⟩ := List.mem_map.mp hwm
            rfl
          · obtain ⟨g, hg, rfl⟩ := List.mem_map.mp hwm
            exact absurd hwf.symm (hsep f hf g (List.mem_filter.mp hg).1))
        (by
          by_cases hsel : selectedForUpdate rootDir f = true
          · right
            refine ⟨(f.Id, rootId), ?_, rfl⟩
            rw [hw]
            apply List.mem_append_left
            exact List.mem_map.mpr ⟨f, List.mem_filter.mpr ⟨hf, hsel⟩, rfl⟩
          · left
            have hor : syncRootIdOf f = rootDir.Id ∨ f.Id = rootDir.Id := by
              by_contra hcon
              simp [selectedForUpdate, hcon] at hsel
            rcases hor with h1 | h1
            · show syncRootIdOf f = rootId
              rw [h1, hrootId]
            · exact absurd h1 hfr)
      have hq2 : syncRootIdOf
          (applyCalls (writes.map (fun w => Call.update w.1 [("syncRootId", w.2)])) f)
          = rootId := hq
      simp [selectedForUpdate, hId, hq2, hrootId]
  have hnotInS : ∀ g ∈ notInS, selectedForClear
      (applyCalls (writes.map (fun w => Call.update w.1 [("syncRootId", w.2)])) g) = false := by
    intro g hg
    have hq := applyCalls_writes
      (fun x => mapGet? x.AppProperties "syncRootId" = some "") ""
      (fun x => applyUpdate_syncRootId "" x) writes g
      (by
        intro w hwm hwg
        rw [hw] at hwm
        rcases List.mem_append.mp hwm with hwm | hwm
        · obtain ⟨f, hf, rfl⟩ := List.mem_map.mp hwm
          exact absurd hwg (hsep f (List.mem_filter.mp hf).1 g hg)
        · obtain ⟨f, _, rfl⟩ := List.mem_map.mp hwm
          rfl)
      (by
        by_cases hsel : selectedForClear g = true
        · right
          refine ⟨(g.Id, ""), ?_, rfl⟩
          rw [hw]
          apply List.mem_append_right
          exact List.mem_map.mpr ⟨g, List.mem_filter.mpr ⟨hg, hsel⟩, rfl⟩
        · left
          show mapGet? g.AppProperties "syncRootId" = some ""
          by_contra hcon
          simp [selectedForClear, hcon] at hsel)
    have hq2 : mapGet?
        (applyCalls (writes.map (fun w => Call.update w.1 [("syncRootId", w.2)])) g).AppProperties
        "syncRootId" = some "" := hq
    simp [selectedForClear, hq2]
  -- the second run
  intro c hc
  cases hroot2 : findSyncRoot (recordingStore isDir)
      (st.map (applyCalls (writes.map (fun w => Call.update w.1 [("syncRootId", w.2)]))))
      rootId with
  | mk res st3 =>
    cases res with
    | error e =>
      simp only [FixSyncHierarchy, hroot2, List.mem_singleton] at hc
      rw [hc]
      rfl
    | ok rootDir2 =>
      have hget2 := findSyncRoot_ok_get (recordingStore isDir) _ st3 rootId rootDir2 hroot2
      obtain ⟨hfind2, hst3⟩ := recordingStore_get isDir _ st3 rootId rootDir2 hget2
      rw [find?_map_id _ hId, hfind] at hfind2
      have hr2 : rootDir2
          = applyCalls (writes.map (fun w => Call.update w.1 [("syncRootId", w.2)])) rootDir :=
        (Option.some.inj hfind2).symm
      have hlist2 : (recordingStore isDir).listAllFiles st3 = (.ok st3, st3) := rfl
      have hfilter2 : filterSyncDirFiles rootDir2 st3
          = .done (inS.map (applyCalls (writes.map
              (fun w => Call.update w.1 [("syncRootId", w.2)]))),
            notInS.map (applyCalls (writes.map
              (fun w => Call.update w.1 [("syncRootId", w.2)])))) := by
        rw [hr2, hst3, filterSyncDirFiles_map _ rootDir st hId hPar, hfilter]
        rfl
      obtain ⟨u1, u2, u3⟩ := updateSyncDirFiles_unselected (recordingStore isDir)
        { RootId := rootId, DryRun := false } rootDir2
        (inS.map (applyCalls (writes.map (fun w => Call.update w.1 [("syncRootId", w.2)])))) st3
        (by
          intro g hg
          obtain ⟨f, hf, rfl⟩ := List.mem_map.mp hg
          rw [hr2]
          exact hinS f hf)
      obtain ⟨v1, v2, _⟩ := clearNonSyncDirFiles_unselected (recordingStore isDir)
        { RootId := rootId, DryRun := false }
        (notInS.map (applyCalls (writes.map (fun w => Call.update w.1 [("syncRootId", w.2)]))))
        st3
        (by
          intro g hg
          obtain ⟨f, hf, rfl⟩ := List.mem_map.mp hg
          exact hnotInS f hf)
      simp only [FixSyncHierarchy, hroot2, hlist2, hfilter2, u1, u2, u3, v1, v2,
        List.append_nil, List.mem_cons, List.mem_singleton, List.not_mem_nil, or_false] at hc
      rcases hc with rfl | rfl <;> rfl

/-- Two runs against the recording store: the first run sets `syncRootId` of `C` to `rootY`
and clears it for `X`; the second run makes the fetch and the listing and no update. -/
theorem FixSyncHierarchy_idempotent_witness :
    (FixSyncHierarchy (recordingStore (fun f => f.MimeType == folderMime))
        { RootId := "rootY", DryRun := false } storeY).calls
      = [Call.get "rootY", Call.listAll, Call.update "C" [("syncRootId", "rootY")],
         Call.update "X" [("syncRootId", "")]] ∧
    (FixSyncHierarchy (recordingStore (fun f => f.MimeType == folderMime))
        { RootId := "rootY", DryRun := false }
        (FixSyncHierarchy (recordingStore (fun f => f.MimeType == folderMime))
          { RootId := "rootY", DryRun := false } storeY).state).calls
      = [Call.get "rootY", Call.listAll] ∧
    ∀ c ∈ (FixSyncHierarchy (recordingStore (fun f => f.MimeType == folderMime))
        { RootId := "rootY", DryRun := false }
        (FixSyncHierarchy (recordingStore (fun f => f.MimeType == folderMime))
          { RootId := "rootY", DryRun := false } storeY).state).calls,
      c.isUpdate = false :=
  ⟨by decide, by decide,
   FixSyncHierarchy_idempotent (fun f => f.MimeType == folderMime) storeY "rootY" (by decide)
     (by decide)⟩

/-! ## A second run on a listing in another order -/

/-- C17: two runs of `FixSyncHierarchy` with `DryRun` off against a store that records the
updates verbatim, keeps the parent links and lists its files `[rootY, A, B]` first in this
order and then in the reverse order (`A` a child of `rootY`, `B` a child of `A`, both with
`syncRootId = ""`).  The first run finds `inSubtree = {rootY}`, `notInSubtree = [A, B]`,
returns without an error and makes no update; the second run, on the store as the first left
it, finds `inSubtree = {B, A, rootY}` and issues an update for `B` and an update for `A`. -/
theorem FixSyncHierarchy_second_run_updates :
    (ids storeRootFirst).Nodup ∧
    filterSyncDirFiles entryY storeRootFirst = .done ([entryY], [fileAY, fileBY]) ∧
    filterSyncDirFiles entryY storeRootFirst.reverse = .done ([fileBY, fileAY, entryY], []) ∧
    (FixSyncHierarchy (flipStore (fun f => f.MimeType == folderMime))
        { RootId := "rootY", DryRun := false } (storeRootFirst, false)).result = .done none ∧
    (FixSyncHierarchy (flipStore (fun f => f.MimeType == folderMime))
        { RootId := "rootY", DryRun := false } (storeRootFirst, false)).calls
      = [Call.get "rootY", Call.listAll] ∧
    (FixSyncHierarchy (flipStore (fun f => f.MimeType == folderMime))
        { RootId := "rootY", DryRun := false } (storeRootFirst, false)).state
      = (storeRootFirst, true) ∧
    (FixSyncHierarchy (flipStore (fun f => f.MimeType == folderMime))
        { RootId := "rootY", DryRun := false }
        (FixSyncHierarchy (flipStore (fun f => f.MimeType == folderMime))
          { RootId := "rootY", DryRun := false } (storeRootFirst, false)).state).calls
      = [Call.get "rootY", Call.listAll, Call.update "B" [("syncRootId", "rootY")],
         Call.update "A" [("syncRootId", "rootY")]] ∧
    (FixSyncHierarchy (flipStore (fun f => f.MimeType == folderMime))
        { RootId := "rootY", DryRun := false }
        (FixSyncHierarchy (flipStore (fun f => f.MimeType == folderMime))
          { RootId := "rootY", DryRun := false } (storeRootFirst, false)).state).result
      = .done none := by
  decide

end Drive
